import Mathlib

/-!
Verification of the exact-arithmetic offset engine of `svg-path-editor`
(`src/svg_path_editor/{math,geometry,intersect,path_offset}.py`) against its
natural-language specification.

Modelling conventions.

* The scalar type `K` is an arbitrary linearly ordered field.  The Python code
  computes with exact SymPy expressions over the real numbers; every claim
  below is settled in the exact regime (`n = None`), in which `subs`/`evalf`
  are the identity and all relaxed predicates collapse to the exact
  comparisons.  The single exception is the predicate `eq` (claim C4), which
  is embedded together with its `Precision` parameter because the claim is
  about the relaxed mode.
* SymPy's symbolic functions that have no finite description in a field
  (`sqrt`, cube root, `cos`, `sin`, `acos`, `atan2`, `pi`) are passed to the
  embedded definitions as explicit function parameters.  Theorems that depend
  on their analytic properties state those properties as hypotheses (for
  example `sqrt 2 * sqrt 2 = 2`), which hold for the real functions; witnesses
  instantiate the parameters concretely.
* Values of SymPy `Expr` that may be complex (the root solvers) are modelled
  as re/im pairs `Cx K`; a real expression has `im = 0`.
* Python exceptions (`assert`, `raise ValueError`, and the two runtime type
  errors present in this snapshot of the code) are modelled with `Except`
  using the error type `PyErr`.
-/

namespace SvgOffset

/-- `Precision` from `math.py`: a pair of digit counts; `full` is their sum. -/
structure Precision where
  baseline : ℕ
  additional : ℕ
deriving DecidableEq

/-- `Precision.full = baseline + additional` (`math.py`). -/
def Precision.full (n : Precision) : ℕ :=
  n.baseline + n.additional

variable {K : Type} [LinearOrderedField K]

/-- `eq(a, b, n)` from `math.py`: with `n` absent an exact equality `Eq(a, b)`;
with `n` present the relaxed constraint
`LessThan(Abs(a - b), Rational(1, 10**n.baseline))`, i.e. the *non-strict*
inequality `|a - b| ≤ 10^(-baseline)`. -/
def eqRel (a b : K) (n : Option Precision) : Prop :=
  match n with
  | none => a = b
  | some n => |a - b| ≤ 1 / 10 ^ n.baseline

instance (a b : K) [DecidableEq K] (n : Option Precision) :
    Decidable (eqRel a b n) := by
  unfold eqRel
  match n with
  | none => exact inferInstance
  | some n => exact inferInstance

/-- `Vec2` from `geometry.py`: a pair of exact expressions. -/
structure Vec2 (K : Type) where
  x : K
  y : K
deriving DecidableEq

/-- Vector addition (`Vec2.__add__`). -/
instance : Add (Vec2 K) :=
  ⟨fun v w => ⟨v.x + w.x, v.y + w.y⟩⟩

/-- Vector subtraction (`Vec2.__sub__`). -/
instance : Sub (Vec2 K) :=
  ⟨fun v w => ⟨v.x - w.x, v.y - w.y⟩⟩

/-- Unary minus (`Vec2.__neg__`). -/
instance : Neg (Vec2 K) :=
  ⟨fun v => ⟨-v.x, -v.y⟩⟩

/-- Scalar multiplication `v * c` (`Vec2.__mul__`). -/
instance : HMul (Vec2 K) K (Vec2 K) :=
  ⟨fun v c => ⟨v.x * c, v.y * c⟩⟩

/-- Scalar division `v / c` (`Vec2.__truediv__`). -/
instance : HDiv (Vec2 K) K (Vec2 K) :=
  ⟨fun v c => ⟨v.x / c, v.y / c⟩⟩

/-- Coordinate swap (`Vec2.swapped`). -/
def Vec2.swapped (v : Vec2 K) : Vec2 K :=
  ⟨v.y, v.x⟩

/-- `Vec2.length`: `sqrt(x*x + y*y)`.  The symbolic square root is the
explicit parameter `sqrt`. -/
def Vec2.len (sqrt : K → K) (v : Vec2 K) : K :=
  sqrt (v.x * v.x + v.y * v.y)

/-- `Vec2.normalized`: the zero vector if the length is (exactly) zero, else
`v / length` (`geometry.py`, `are_equal(length, 0)` in the exact regime). -/
def Vec2.normalized (sqrt : K → K) (v : Vec2 K) : Vec2 K :=
  if Vec2.len sqrt v = 0 then ⟨0, 0⟩ else v / Vec2.len sqrt v

/-- `Mat2` from `geometry.py`: a 2×2 matrix `[[a, b], [c, d]]`. -/
structure Mat2 (K : Type) where
  a : K
  b : K
  c : K
  d : K

/-- Matrix–vector product (`Mat2.__matmul__`). -/
def Mat2.apply (m : Mat2 K) (v : Vec2 K) : Vec2 K :=
  ⟨m.a * v.x + m.b * v.y, m.c * v.x + m.d * v.y⟩

/-- `_rotation_matrix(phi)` from `geometry.py`: `[[cos, -sin], [sin, cos]]` of
`rad(phi)`.  The composites `cos ∘ rad` and `sin ∘ rad` are the parameters
`cosd`/`sind` (cosine/sine of an angle given in degrees). -/
def rotationMatrix (cosd sind : K → K) (phi : K) : Mat2 K :=
  ⟨cosd phi, -sind phi, sind phi, cosd phi⟩

/-- `polygon_signed_area` from `geometry.py`: the shoelace sum
`Σ (x_i * y_{i+1} - x_{i+1} * y_i)` over cyclic indices, divided by 2. -/
def polygon_signed_area (poly : List (Vec2 K)) : K :=
  ((List.range poly.length).foldl
    (fun acc i =>
      let v := poly.getD i ⟨0, 0⟩
      let w := poly.getD ((i + 1) % poly.length) ⟨0, 0⟩
      acc + (v.x * w.y - w.x * v.y))
    0) / 2

/-- `Line` from `geometry.py`: the segment/line from `p` to `q`. -/
structure Line (K : Type) where
  p : Vec2 K
  q : Vec2 K
deriving DecidableEq

/-- `Line.delta = q - p`. -/
def Line.delta (l : Line K) : Vec2 K :=
  ⟨l.q.x - l.p.x, l.q.y - l.p.y⟩

/-- `Line.__call__`: `L(t) = p + (q - p) * t`. -/
def Line.eval (l : Line K) (t : K) : Vec2 K :=
  l.p + (l.q - l.p) * t

/-- Swap the coordinates of both endpoints (used by the vertical-line branch
of `intersect_lines_raw`). -/
def Line.swapped (l : Line K) : Line K :=
  ⟨l.p.swapped, l.q.swapped⟩

/-- `Line.inward_normal(is_ccw)` from `geometry.py`: `(dy, -dx)` for a CCW
boundary, `(-dy, dx)` otherwise, then normalized. -/
def Line.inward_normal (sqrt : K → K) (l : Line K) (is_ccw : Bool) : Vec2 K :=
  let d := l.delta
  Vec2.normalized sqrt (if is_ccw then ⟨d.y, -d.x⟩ else ⟨-d.y, d.x⟩)

/-- `Line.offset(d, is_ccw)` from `geometry.py`: translate both endpoints by
`inward_normal * d` (exact regime: the `evalf` is the identity). -/
def Line.offset (sqrt : K → K) (l : Line K) (d : K) (is_ccw : Bool) : Line K :=
  let normal := l.inward_normal sqrt is_ccw * d
  ⟨l.p + normal, l.q + normal⟩

/-- `ParametricEllipticalArc` from `geometry.py`: center `c`, radii `r`,
start angle `theta0`, signed sweep `dtheta`, rotation `phi` (degrees). -/
structure ParametricEllipticalArc (K : Type) where
  c : Vec2 K
  r : Vec2 K
  theta0 : K
  dtheta : K
  phi : K
deriving DecidableEq

/-- `theta1 = theta0 + dtheta` (`geometry.py`). -/
def ParametricEllipticalArc.theta1 (arc : ParametricEllipticalArc K) : K :=
  arc.theta0 + arc.dtheta

/-- `locally_convex(is_ccw)` from `geometry.py`:
`as_bool(dtheta < 0) == is_ccw`. -/
def ParametricEllipticalArc.locally_convex (arc : ParametricEllipticalArc K)
    (is_ccw : Bool) : Bool :=
  decide (arc.dtheta < 0) == is_ccw

/-- `ParametricEllipticalArc.offset(d, is_ccw)` from `geometry.py`:
`radial_delta = -d` if locally convex else `d`; both radii are shifted by it
and `c`, `theta0`, `dtheta`, `phi` are passed through unchanged. -/
def ParametricEllipticalArc.offset (arc : ParametricEllipticalArc K) (d : K)
    (is_ccw : Bool) : ParametricEllipticalArc K :=
  let radial_delta := if arc.locally_convex is_ccw then -d else d
  { c := arc.c
    r := ⟨arc.r.x + radial_delta, arc.r.y + radial_delta⟩
    theta0 := arc.theta0
    dtheta := arc.dtheta
    phi := arc.phi }

/-- Python's `% 360` on an exact real value: the representative of `x`
modulo `360` in `[0, 360)`. -/
def mod360 [FloorRing K] (x : K) : K :=
  x - 360 * ⌊x / 360⌋

/-- `angle_condition(theta)` from `geometry.py` in the exact regime:
reduce `theta0`, `theta1` and `theta` modulo 360, order the first two by the
sign of `dtheta`, and test interval membership with a wrap-around case. -/
def ParametricEllipticalArc.angle_condition [FloorRing K]
    (arc : ParametricEllipticalArc K) (theta : K) : Bool :=
  let t0 := mod360 arc.theta0
  let t1 := mod360 arc.theta1
  let th := mod360 theta
  let lo := if 0 ≤ arc.dtheta then t0 else t1
  let hi := if 0 ≤ arc.dtheta then t1 else t0
  if lo ≤ hi then decide (lo ≤ th) && decide (th ≤ hi)
  else decide (lo ≤ th) || decide (th ≤ hi)

/-- `point_tangent(theta)` from `geometry.py`: the point on the ellipse at
parameter `theta` and the (unnormalized) derivative with respect to `theta`,
negated when `dtheta < 0`. -/
def ParametricEllipticalArc.point_tangent (cosd sind : K → K)
    (arc : ParametricEllipticalArc K) (theta : K) : Vec2 K × Vec2 K :=
  let cos_phi := cosd arc.phi
  let sin_phi := sind arc.phi
  let cos_theta := cosd theta
  let sin_theta := sind theta
  let x := arc.c.x + arc.r.x * cos_theta * cos_phi - arc.r.y * sin_theta * sin_phi
  let y := arc.c.y + arc.r.x * cos_theta * sin_phi + arc.r.y * sin_theta * cos_phi
  let dxdt := -arc.r.x * sin_theta * cos_phi - arc.r.y * cos_theta * sin_phi
  let dydt := -arc.r.x * sin_theta * sin_phi + arc.r.y * cos_theta * cos_phi
  if arc.dtheta < 0 then (⟨x, y⟩, ⟨-dxdt, -dydt⟩) else (⟨x, y⟩, ⟨dxdt, dydt⟩)

/-- `transform(p, inverse)` from `geometry.py`: the affine map between the
unit circle and the ellipse.  Forward: scale by `r`, rotate by `phi`,
translate by `c`.  Inverse: subtract `c`, rotate by `-phi`, divide
componentwise by `r`. -/
def ParametricEllipticalArc.transform (cosd sind : K → K)
    (arc : ParametricEllipticalArc K) (p : Vec2 K) (inverse : Bool) : Vec2 K :=
  if inverse then
    let xy := p - arc.c
    let xy := (rotationMatrix cosd sind (-arc.phi)).apply xy
    ⟨xy.x / arc.r.x, xy.y / arc.r.y⟩
  else
    let xy : Vec2 K := ⟨p.x * arc.r.x, p.y * arc.r.y⟩
    (rotationMatrix cosd sind arc.phi).apply xy + arc.c

/-- Error cases of the Python code that are modelled in this embedding:
the two `ValueError`s of `polynomial_roots`, the `assert` failures of
`_prepare_offset_data`, and the two runtime errors present in this snapshot
of the source (see `offset_path` and `intersect_arc_arc` below). -/
inductive PyErr where
  | infinitelyManySolutions
  | degreeUnsupported
  | assertionFailed
  | attributeErrorTargetLocation
  | typeErrorResultantArity
deriving DecidableEq

/-- The value of a SymPy expression that may be complex: re/im pair.
A real value is `⟨v, 0⟩`. -/
structure Cx (K : Type) where
  re : K
  im : K
deriving DecidableEq

/-- `Counter(res)` from `math.py` (`collections.Counter` over a list):
the multiplicity map, as an association list in first-occurrence order. -/
def countList [DecidableEq A] (l : List A) : List (A × ℕ) :=
  l.foldl
    (fun acc a =>
      if acc.any (fun p => p.1 = a) then
        acc.map (fun p => if p.1 = a then (p.1, p.2 + 1) else p)
      else acc ++ [(a, 1)])
    []

/-- Coefficient normalization performed by `sympy.Poly(poly, x).all_coeffs()`:
leading zero coefficients are stripped; the zero polynomial yields `[0]`.
The input is the raw descending coefficient list of the expression. -/
def allCoeffs (coeffs : List K) : List K :=
  let stripped := coeffs.dropWhile (fun c => c = 0)
  if stripped.isEmpty then [0] else stripped

/-- Horner evaluation of a descending coefficient list (used to tie concrete
coefficient lists in the claims to the polynomial expressions they denote). -/
def evalPoly (coeffs : List K) (x : K) : K :=
  coeffs.foldl (fun acc c => acc * x + c) 0

/-- `sp.sign` on a real value. -/
def sgn (x : K) : K :=
  if x < 0 then -1 else if x = 0 then 0 else 1

/-- `quadratic_roots(a1, a0, real_only)` from `math.py` in the exact regime
(`cutoff_tiny` is the identity): roots of `z^2 + a1 z + a0`.
If `real_only` and the discriminant is negative the list is empty, otherwise
`[(-a1 + sqrt disc)/2, (-a1 - sqrt disc)/2]`.  (For `real_only = False` with a
negative discriminant SymPy would produce a conjugate complex pair; no claim
and no internal caller exercises that combination, and the embedding keeps
the two formal `sqrt` expressions as real values.) -/
def quadratic_roots (sqrt : K → K) (a1 a0 : K) (real_only : Bool) :
    List (Cx K) :=
  let disc := a1 ^ 2 - 4 * a0
  if !real_only || decide (0 ≤ disc) then
    [⟨(-a1 + sqrt disc) / 2, 0⟩, ⟨(-a1 - sqrt disc) / 2, 0⟩]
  else []

/-- `cubic_roots(a2, a1, a0, real_only)` from `math.py` in the exact regime:
roots of `z^3 + a2 z^2 + a1 z + a0` by the algorithm of the source
(Numerical-Recipes case for `disc > 0`, Viète's trigonometric form
otherwise).  `(-q)^(3/2)` is modelled as `sqrt(-q)^3`, equal to it in the
branch's regime `q ≤ 0`;  `Piecewise((A - q/A, r ≥ 0), (q/A - A, True))` is
the conditional on `0 ≤ r`. -/
def cubic_roots (cbrt sqrt acosf cosf : K → K) (pi : K) (a2 a1 a0 : K)
    (real_only : Bool) : List (Cx K) :=
  let q := a1 / 3 - a2 ^ 2 / 9
  let r := (a1 * a2 - 3 * a0) / 6 - a2 ^ 3 / 27
  let disc := r ^ 2 + q ^ 3
  if 0 < disc then
    let aa := cbrt (|r| + sqrt disc)
    let t1 := if 0 ≤ r then aa - q / aa else q / aa - aa
    let z1 := t1 - a2 / 3
    if real_only then [⟨z1, 0⟩]
    else
      let x2 := -t1 / 2 - a2 / 3
      let y2 := sqrt 3 / 2 * (aa + q / aa)
      [⟨z1, 0⟩, ⟨x2, y2⟩, ⟨x2, -y2⟩]
  else
    let theta := if q = 0 then 0
      else
        let arg := r / sqrt (-q) ^ 3
        if arg = 1 then 0 else acosf arg
    let phi1 := theta / 3
    let phi2 := phi1 - 2 * pi / 3
    let phi3 := phi1 + 2 * pi / 3
    let z1 := 2 * sqrt (-q) * cosf phi1 - a2 / 3
    let z2 := 2 * sqrt (-q) * cosf phi2 - a2 / 3
    let z3 := 2 * sqrt (-q) * cosf phi3 - a2 / 3
    [⟨z1, 0⟩, ⟨z2, 0⟩, ⟨z3, 0⟩]

/-- `quartic_roots(a3, a2, a1, a0, real_only)` from `math.py`: Wolters'
modified Euler algorithm.  The resolvent cubic is solved with
`real_only = False`; its first root is real in both branches of
`cubic_roots` and is used as `r1`. -/
def quartic_roots (cbrt sqrt acosf cosf : K → K) (pi : K) (a3 a2 a1 a0 : K)
    (real_only : Bool) : List (Cx K) :=
  let c := a3 / 4
  let b2 := a2 - 6 * c ^ 2
  let b1 := a1 - 2 * a2 * c + 8 * c ^ 3
  let b0 := a0 - a1 * c + a2 * c ^ 2 - 3 * c ^ 4
  let sigma := sgn b1
  let rs := cubic_roots cbrt sqrt acosf cosf pi (b2 / 2) ((b2 ^ 2 - 4 * b0) / 16)
    (-(b1 ^ 2) / 64) false
  match rs with
  | [r1, r2, r3] =>
    let x2 := r2.re
    let y2 := r2.im
    let x3 := r3.re
    let r1sqrt := sqrt r1.re
    let x23 := x2 + x3
    let inner := sqrt (x2 * x3 + y2 ^ 2)
    let radicant1 := x23 - 2 * sigma * inner
    let radicant2 := x23 + 2 * sigma * inner
    let sols1 : List (Cx K) :=
      if !real_only || decide (0 ≤ radicant1) then
        let root1 := sqrt radicant1
        [⟨r1sqrt + root1 - c, 0⟩, ⟨r1sqrt - root1 - c, 0⟩]
      else []
    let sols2 : List (Cx K) :=
      if !real_only || decide (0 ≤ radicant2) then
        let root2 := sqrt radicant2
        [⟨-r1sqrt + root2 - c, 0⟩, ⟨-r1sqrt - root2 - c, 0⟩]
      else []
    sols1 ++ sols2
  | _ => []

/-- `polynomial_roots(poly, x, real_only)` from `math.py` in the exact
regime: normalize the coefficient list as `sympy.Poly` does, dispatch on the
degree, and return the `Counter` of the produced root list.  Degree 0 yields
`{}` for a nonzero constant and `ValueError` ("Infinitely many solutions!")
for the zero polynomial; any degree above 4 yields `ValueError`
("Only polynomials up to degree 4 are supported"). -/
def polynomial_roots (cbrt sqrt acosf cosf : K → K) (pi : K)
    (coeffs : List K) (real_only : Bool) :
    Except PyErr (List (Cx K × ℕ)) :=
  match allCoeffs coeffs with
  | [a4, a3, a2, a1, a0] =>
    .ok (countList (quartic_roots cbrt sqrt acosf cosf pi (a3 / a4) (a2 / a4)
      (a1 / a4) (a0 / a4) real_only))
  | [a3, a2, a1, a0] =>
    .ok (countList (cubic_roots cbrt sqrt acosf cosf pi (a2 / a3) (a1 / a3)
      (a0 / a3) real_only))
  | [a2, a1, a0] =>
    .ok (countList (quadratic_roots sqrt (a1 / a2) (a0 / a2) real_only))
  | [a1, a0] => .ok (countList [(⟨-a0 / a1, 0⟩ : Cx K)])
  | [a0] =>
    if a0 = 0 then .error .infinitelyManySolutions else .ok []
  | _ => .error .degreeUnsupported

/-- Result of `intersect_lines_raw` (`intersect.py`): either a proper
`LineIntersection` or a `LineCoincidentIntersection`, both carrying the two
parameters and the common point. -/
inductive LineRaw (K : Type) where
  | inter (t u : K) (pt : Vec2 K)
  | coincident (t u : K) (pt : Vec2 K)
deriving DecidableEq

/-- The parameter `t` of a raw line-line result. -/
def LineRaw.t : LineRaw K → K
  | .inter t _ _ => t
  | .coincident t _ _ => t

/-- The parameter `u` of a raw line-line result. -/
def LineRaw.u : LineRaw K → K
  | .inter _ u _ => u
  | .coincident _ u _ => u

/-- Swap the coordinates of the stored intersection point
(`LineIntersection.swapped` / `LineCoincidentIntersection.swapped`). -/
def LineRaw.swapped : LineRaw K → LineRaw K
  | .inter t u pt => .inter t u pt.swapped
  | .coincident t u pt => .coincident t u pt.swapped

/-- Result of `intersect_lines` (`intersect.py`): `LineIntersection`,
`LineCoincidentIntersection`, or the fallback `LineAroundIntersection`
with fields `(intersection, ante_intersection, post_intersection,
ante_extended, post_extended)`. -/
inductive LineLineRes (K : Type) where
  | inter (t u : K) (pt : Vec2 K)
  | coincident (t u : K) (pt : Vec2 K)
  | around (i a p ae pe : Vec2 K)
deriving DecidableEq

/-- Inclusion of raw results into `LineLineRes`. -/
def LineRaw.toRes : LineRaw K → LineLineRes K
  | .inter t u pt => .inter t u pt
  | .coincident t u pt => .coincident t u pt

/-- The symbolic parameter expression
`u(t) = ((l0.p.x - l1.p.x) + l0.delta.x * t) / l1.delta.x` of
`intersect_non_vertical` (`intersect.py`). -/
def nv_uAt (l0 l1 : Line K) (t : K) : K :=
  ((l0.p.x - l1.p.x) + l0.delta.x * t) / l1.delta.x

/-- The symbolic polynomial `poly(t) = l0(t).y - l1(u(t)).y` of
`intersect_non_vertical` (`intersect.py`), as the function it denotes. -/
def nv_polyAt (l0 l1 : Line K) (t : K) : K :=
  (l0.eval t).y - (l1.eval (nv_uAt l0 l1 t)).y

/-- The helper `intersect_non_vertical` inside `intersect_lines_raw`
(`intersect.py`).  The symbolic affine polynomial `poly` is represented by
its evaluations `poly0 = poly(0)` and `poly1 = poly(1)` exactly as the
source computes them (`subs(poly, {t: 0})`, `subs(poly, {t: 1})`);
`slope = poly1 - poly0`.  The source's parallel test `are_equal(slope, 0)`
and coincidence test `are_equal(poly, 0)` (the affine polynomial is
identically zero) become `slope = 0` and, inside that branch,
`poly0 = 0`. -/
def intersect_non_vertical (l0 l1 : Line K) : Option (LineRaw K) :=
  let poly0 := nv_polyAt l0 l1 0
  let slope := nv_polyAt l0 l1 1 - nv_polyAt l0 l1 0
  if slope = 0 then
    if poly0 = 0 then some (.coincident 1 (nv_uAt l0 l1 1) l0.q) else none
  else
    let tv := -poly0 / slope
    some (.inter tv (nv_uAt l0 l1 tv) (l0.eval tv))

/-- `intersect_lines_raw` (`intersect.py`): if `l1` is vertical
(`is_zero(l1.delta.x)` in the exact regime), swap the coordinates of both
lines, solve, and swap the resulting point back. -/
def intersect_lines_raw (l0 l1 : Line K) : Option (LineRaw K) :=
  if l1.delta.x = 0 then
    (intersect_non_vertical l0.swapped l1.swapped).map LineRaw.swapped
  else intersect_non_vertical l0 l1

/-- The common fallback guard `if not d: return None` of the three
intersection routines: `d` absent or `Decimal(0)` (falsy) suppresses the
"around" fallback. -/
def aroundFallback (d : Option K) (mk : K → A) : Option A :=
  match d with
  | none => none
  | some dv => if dv = 0 then none else some (mk dv)

/-- `intersect_lines(l0, l1, d)` from `intersect.py`: accept the raw result
when `t >= 0` and `u <= 1`; otherwise, for a truthy `d`, synthesize a
`LineAroundIntersection` whose extended points are the end of `l0` and the
start of `l1` offset by `dec_to_rat(d)` (the signed value) along the
normalized segment directions, and whose intersection is their midpoint. -/
def intersect_lines (sqrt : K → K) (l0 l1 : Line K) (d : Option K) :
    Option (LineLineRes K) :=
  let fallback : Option (LineLineRes K) :=
    aroundFallback d (fun dv =>
      let d0 := Vec2.normalized sqrt l0.delta
      let d1 := Vec2.normalized sqrt l1.delta
      let ante_extended := l0.q + d0 * dv
      let post_extended := l1.p - d1 * dv
      .around ((ante_extended + post_extended) * ((1 : K) / 2))
        l0.q l1.p ante_extended post_extended)
  match intersect_lines_raw l0 l1 with
  | some i => if 0 ≤ i.t ∧ i.u ≤ 1 then some i.toRes else fallback
  | none => fallback

/-- Which endpoint tangent a `LineArcExtIntersection` used. -/
inductive ExtSide where
  | ante
  | post
deriving DecidableEq

/-- Result of `intersect_line_arc` (`intersect.py`):
`LineArcIntersection(t, theta, intersection)`,
`LineArcExtIntersection(t, u, intersection, post_intersection, theta, ext)`,
or `LineArcAroundIntersection` with the same five points as the line-line
around record. -/
inductive LineArcRes (K : Type) where
  | interior (t theta : K) (pt : Vec2 K)
  | ext (t u : K) (pt postPt : Vec2 K) (theta : K) (side : ExtSide)
  | around (i a p ae pe : Vec2 K)
deriving DecidableEq

/-- Step 3 of `intersect_line_arc` (`intersect.py`): the interior
intersection search.

The source transforms the symbolic point `lin(t)` into unit-circle
coordinates; since the inverse transform is affine, the symbolic image is
`luP + (luQ - luP) * t` with `luP`, `luQ` the images of the endpoints, and
the circle equation `lu.x(t)^2 + lu.y(t)^2 - 1 = 0` has the descending
coefficient list computed below, which is handed to `polynomial_roots`
exactly as the source hands over the expanded quadratic.  Each candidate
root is filtered by the line condition (`t >= 0` when the line precedes the
arc, `t <= 1` otherwise) and `angle_condition` of the angle
`deg(atan2(lu.y, lu.x))` (the parameter `atan2d`); the first qualifying
root wins. -/
def line_arc_search [FloorRing K] (cbrt sqrt acosf cosf cosd sind : K → K)
    (pi : K) (atan2d : K → K → K) (lin : Line K)
    (arc : ParametricEllipticalArc K) (line_before_arc : Bool) :
    Except PyErr (Option (LineArcRes K)) :=
  let luP := arc.transform cosd sind lin.p true
  let luQ := arc.transform cosd sind lin.q true
  let luD := luQ - luP
  let coeffs : List K :=
    [luD.x * luD.x + luD.y * luD.y,
     2 * (luP.x * luD.x + luP.y * luD.y),
     luP.x * luP.x + luP.y * luP.y - 1]
  match polynomial_roots cbrt sqrt acosf cosf pi coeffs true with
  | .error e => .error e
  | .ok sols =>
    let computeAngle : K → K := fun tv =>
      let p := luP + luD * tv
      atan2d p.y p.x
    let lineCondition : K → Bool := fun tv =>
      if line_before_arc then decide (0 ≤ tv) else decide (tv ≤ 1)
    match sols.find? (fun s =>
        lineCondition s.1.re && arc.angle_condition (computeAngle s.1.re)) with
    | some s =>
      .ok (some (.interior s.1.re (computeAngle s.1.re) (lin.eval s.1.re)))
    | none => .ok none

/-- The `LineArcAroundIntersection` record built in step 4 of
`intersect_line_arc` (`intersect.py`): connect the end of the line to the
start of the arc (when the line comes first) or the end of the arc to the
start of the line (otherwise), each endpoint extended by the signed `d`
along the respective (tangent) direction, with the midpoint as
intersection. -/
def line_arc_around (sqrt cosd sind : K → K) (lin : Line K)
    (arc : ParametricEllipticalArc K) (line_before_arc : Bool) (dv : K) :
    LineArcRes K :=
  if line_before_arc then
    let ante_intersection := lin.q
    let pt := arc.point_tangent cosd sind arc.theta0
    let post_intersection := pt.1
    let d_line := Vec2.normalized sqrt lin.delta
    let d_arc_norm := Vec2.normalized sqrt pt.2
    let ante_extended := ante_intersection + d_line * dv
    let post_extended := post_intersection - d_arc_norm * dv
    .around ((ante_extended + post_extended) * ((1 : K) / 2))
      ante_intersection post_intersection ante_extended post_extended
  else
    let pt := arc.point_tangent cosd sind arc.theta1
    let ante_intersection := pt.1
    let post_intersection := lin.p
    let d_line := -Vec2.normalized sqrt lin.delta
    let d_arc_norm := -Vec2.normalized sqrt pt.2
    let ante_extended := ante_intersection + d_line * dv
    let post_extended := post_intersection - d_arc_norm * dv
    .around ((ante_extended + post_extended) * ((1 : K) / 2))
      ante_intersection post_intersection ante_extended post_extended

/-- Steps 3 and 4 of `intersect_line_arc` (`intersect.py`): the interior
search followed, when it finds nothing, by the guarded "around" fallback
(`if not d: return None`). -/
def line_arc_core [FloorRing K] (cbrt sqrt acosf cosf cosd sind : K → K)
    (pi : K) (atan2d : K → K → K) (lin : Line K)
    (arc : ParametricEllipticalArc K) (line_before_arc : Bool)
    (d : Option K) : Except PyErr (Option (LineArcRes K)) :=
  match line_arc_search cbrt sqrt acosf cosf cosd sind pi atan2d lin arc
    line_before_arc with
  | .error e => .error e
  | .ok (some r) => .ok (some r)
  | .ok none =>
    .ok (aroundFallback d (line_arc_around sqrt cosd sind lin arc
      line_before_arc))

/-- `intersect_line_arc(lin, arc, line_before_arc, d)` from `intersect.py`:
first try the endpoint-tangent half-line on the side selected by
`line_before_arc` (accepting a proper `LineIntersection` with `t >= 0`,
`u > 0` for the ante side, `t <= 1`, `u > 0` for the post side), then the
interior intersection, then the "around" fallback. -/
def intersect_line_arc [FloorRing K] (cbrt sqrt acosf cosf cosd sind : K → K)
    (pi : K) (atan2d : K → K → K) (lin : Line K)
    (arc : ParametricEllipticalArc K) (line_before_arc : Bool)
    (d : Option K) : Except PyErr (Option (LineArcRes K)) :=
  let rest := line_arc_core cbrt sqrt acosf cosf cosd sind pi atan2d lin arc
    line_before_arc d
  if line_before_arc then
    let pt := arc.point_tangent cosd sind arc.theta0
    let ante_line : Line K := ⟨pt.1, pt.1 - pt.2⟩
    match intersect_lines_raw lin ante_line with
    | some (.inter t u ipt) =>
      if 0 ≤ t ∧ 0 < u then
        .ok (some (.ext t u ipt pt.1 arc.theta0 .ante))
      else rest
    | _ => rest
  else
    let pt := arc.point_tangent cosd sind arc.theta1
    let post_line : Line K := ⟨pt.1, pt.1 + pt.2⟩
    match intersect_lines_raw lin post_line with
    | some (.inter t u ipt) =>
      if t ≤ 1 ∧ 0 < u then
        .ok (some (.ext t u ipt pt.1 arc.theta1 .post))
      else rest
    | _ => rest

/-- Result type of `intersect_arc_arc` (`intersect.py`). -/
inductive ArcArcRes (K : Type) where
  | interior (theta0 theta1 : K) (pt : Vec2 K)
  | ext (t u : K) (pt a p : Vec2 K)
  | around (i a p ae pe : Vec2 K)
deriving DecidableEq

/-- `intersect_arc_arc(arc0, arc1, d)` from `intersect.py`.

In this snapshot of the source every call fails: line 587 of `intersect.py`
invokes `resultant(imp0, imp1, y, n=n)`, but `resultant` in `math.py`
(line 540) requires the four positional arguments `(f, g, x, y)`, so the
call binds `x := y` and leaves the required parameter `y` unfilled — Python
raises `TypeError: resultant() missing 1 required positional argument: 'y'`
before any intersection logic (and in particular before the `if d:` guard
at lines 632–642) can run.  The implicit forms `imp0`/`imp1` computed before
the call cannot raise.  The embedding therefore returns that error
unconditionally; the interior/tangent/around logic of the source is dead
code in this snapshot. -/
def intersect_arc_arc (_arc0 _arc1 : ParametricEllipticalArc K)
    (_d : Option K) : Except PyErr (Option (ArcArcRes K)) :=
  .error .typeErrorResultantArity

/-- A geometric primitive handled by the dispatcher `intersect`
(`intersect.py`): a line segment or an elliptical arc. -/
inductive Shape (K : Type) where
  | line (l : Line K)
  | arc (a : ParametricEllipticalArc K)

/-- Sum of the intersection-record families, for the dispatcher. -/
inductive AnyRes (K : Type) where
  | lineLine (r : LineLineRes K)
  | lineArc (r : LineArcRes K)
  | arcArc (r : ArcArcRes K)
deriving DecidableEq

/-- The dispatcher `intersect(a, b, d)` from `intersect.py`: structural
match on the argument kinds.  A line before an arc uses
`line_before_arc=True`, an arc before a line `line_before_arc=False`. -/
def intersect [FloorRing K] (cbrt sqrt acosf cosf cosd sind : K → K)
    (pi : K) (atan2d : K → K → K) (a b : Shape K) (d : Option K) :
    Except PyErr (Option (AnyRes K)) :=
  match a, b with
  | .line l0, .line l1 => .ok ((intersect_lines sqrt l0 l1 d).map .lineLine)
  | .line lin, .arc arc =>
    (intersect_line_arc cbrt sqrt acosf cosf cosd sind pi atan2d lin arc
      true d).map (fun o => o.map .lineArc)
  | .arc arc, .line lin =>
    (intersect_line_arc cbrt sqrt acosf cosf cosd sind pi atan2d lin arc
      false d).map (fun o => o.map .lineArc)
  | .arc arc0, .arc arc1 =>
    (intersect_arc_arc arc0 arc1 d).map (fun o => o.map .arcArc)

/-- Input path commands consumed by `offset_path` (`path_offset.py`), in the
shared path model of `svg.py`, restricted to the fragment the settled claims
exercise: absolute `MoveTo`/`LineTo`/`HorizontalLineTo`/`VerticalLineTo` and
`ClosePath`.  (`H`/`V` are straight lines whose target keeps the previous
`y`/`x` coordinate, per `svg.py` lines 876–878 and 950–952.) -/
inductive SvgIn (K : Type) where
  | moveTo (x y : K)
  | lineTo (x y : K)
  | horizontalTo (x : K)
  | verticalTo (y : K)
  | closePath
deriving DecidableEq

/-- `target_location()` of an item given the previous item's target
(`svg.py`): the absolute point reached by the command.  `ClosePath` is never
queried by the offset pipeline (it is dropped by `items[:-1]`). -/
def SvgIn.target (it : SvgIn K) (prev : Vec2 K) : Vec2 K :=
  match it with
  | .moveTo x y => ⟨x, y⟩
  | .lineTo x y => ⟨x, y⟩
  | .horizontalTo x => ⟨x, prev.y⟩
  | .verticalTo y => ⟨prev.x, y⟩
  | .closePath => prev

/-- The absolute target of every item, threading the previous target
starting from `(0, 0)` (`svg.py`, `refresh_absolute_points`). -/
def computeTargets (prev : Vec2 K) : List (SvgIn K) → List (Vec2 K)
  | [] => []
  | it :: rest =>
    let t := it.target prev
    t :: computeTargets t rest

/-- Is the item a `MoveTo`? -/
def SvgIn.isMoveTo : SvgIn K → Bool
  | .moveTo _ _ => true
  | _ => false

/-- Is the item a `ClosePath`? -/
def SvgIn.isClose : SvgIn K → Bool
  | .closePath => true
  | _ => false

/-- Output commands emitted by `offset_path` for a path of straight
segments: absolute `MoveTo`, `LineTo`, `ClosePath`. -/
inductive SvgOut (K : Type) where
  | moveTo (pt : Vec2 K)
  | lineTo (pt : Vec2 K)
  | closePath
deriving DecidableEq

/-- `offset_path(path, d, prec=None)` from `path_offset.py` as it stands in
this snapshot.  `_prepare_offset_data` first checks the three assertions
(non-empty, starts with `MoveTo`, ends with `ClosePath`) and then evaluates
`pts = [it.target_location.vec2 for it in items[:-1]]` (line 64).
`target_location` is a plain *method* of `SvgItem` (`svg.py` line 479), so
the attribute access yields a bound method object and the `.vec2` access
raises `AttributeError` on every call that passes the assertions; the rest
of the pipeline is unreachable.  (`svg.py`'s own call sites use
`target_location()`, and the expected outputs in
`tests/test_path_offset.py` require the pipeline to run, so the attribute
access is a slip; `offset_path_fixed` below models the intended code with
the method called.) -/
def offset_path (items : List (SvgIn K)) (_d : K) :
    Except PyErr (List (SvgOut K)) :=
  if items.isEmpty then .error .assertionFailed
  else if !(items.head?.elim false SvgIn.isMoveTo) then .error .assertionFailed
  else if !(items.getLast?.elim false SvgIn.isClose) then .error .assertionFailed
  else .error .attributeErrorTargetLocation

/-- The `_OffsetData` tuple of `path_offset.py` (for an all-line path):
orientation, vertex list, offset segments, and the intersections of
consecutive offsets. -/
structure OffsetData (K : Type) where
  is_ccw : Bool
  pts : List (Vec2 K)
  offsets : List (Line K)
  inters : List (LineLineRes K)

/-- `_prepare_offset_data(path, d, prec=None)` with the attribute slip
repaired (`target_location()` called as in every other module), for a path
whose segments are all straight lines:

1. assert the path is a non-empty `M … Z` list with at least 2 vertices;
2. `pts` = absolute targets of `items[:-1]`; `is_ccw` iff the shoelace
   area is negative;
3. `offsets[i]` = `Line(pts[i], pts[(i+1) % n]).offset(d, is_ccw)`;
4. `inters[i]` = `intersect(offsets[i-1], offsets[i], d=d)` (cyclic, with
   Python's `offsets[-1]` for `i = 0`), all of which must be non-`None`.

The `i`-th offset segment is `Line(pts[i], pts[(i+1) % n]).offset(d,
is_ccw)`. -/
def offsetSegments (sqrt : K → K) (pts : List (Vec2 K)) (d : K)
    (is_ccw : Bool) : List (Line K) :=
  (List.range pts.length).map (fun i =>
    Line.offset sqrt ⟨pts.getD i ⟨0, 0⟩, pts.getD ((i + 1) % pts.length) ⟨0, 0⟩⟩
      d is_ccw)

/-- Step 4 of `_prepare_offset_data`: `inters[i] = intersect(offsets[i-1],
offsets[i], d=d)` cyclically, with Python's `offsets[-1]` for `i = 0`. -/
def offsetIntersections (sqrt : K → K) (offsets : List (Line K)) (d : K) :
    List (Option (LineLineRes K)) :=
  let dfl : Line K := ⟨⟨0, 0⟩, ⟨0, 0⟩⟩
  (List.range offsets.length).map (fun i =>
    intersect_lines sqrt
      (offsets.getD ((i + offsets.length - 1) % offsets.length) dfl)
      (offsets.getD i dfl) (some d))

/-- `_prepare_offset_data` (attribute slip repaired) for an all-line path:
validate the `M … Z` shape, compute `pts`, orientation, the offset segments
and their cyclic intersections, all of which must be non-`None`. -/
def prepare_offset_data_fixed (sqrt : K → K) (items : List (SvgIn K))
    (d : K) : Except PyErr (OffsetData K) :=
  if items.isEmpty then .error .assertionFailed
  else if !(items.head?.elim false SvgIn.isMoveTo) then .error .assertionFailed
  else if !(items.getLast?.elim false SvgIn.isClose) then .error .assertionFailed
  else
    let pts := computeTargets ⟨0, 0⟩ items.dropLast
    if pts.length < 2 then .error .assertionFailed
    else
      let is_ccw : Bool := decide (polygon_signed_area pts < 0)
      let offsets := offsetSegments sqrt pts d is_ccw
      let inters := offsetIntersections sqrt offsets d
      if inters.any Option.isNone then .error .assertionFailed
      else .ok ⟨is_ccw, pts, offsets, inters.filterMap id⟩

/-- The `intersection` field shared by all line-line records. -/
def LineLineRes.intersection : LineLineRes K → Vec2 K
  | .inter _ _ pt => pt
  | .coincident _ _ pt => pt
  | .around i _ _ _ _ => i

/-- The bevel triangle of `path_offset.py` (`Tri(orig0, off0, off1)`). -/
structure Tri (K : Type) where
  orig0 : Vec2 K
  off0 : Vec2 K
  off1 : Vec2 K

/-- `_line_ante(orig, inter0)` from `path_offset.py` for line-line records:
for a `LineAroundIntersection` the ante point is `post_extended` and one
triangle `(previous point, ante_extended, post_extended)` is produced;
otherwise the ante point is the intersection and there are no triangles. -/
def lineAnte (p0 : Vec2 K) (inter0 : LineLineRes K) :
    Vec2 K × List (Tri K) :=
  match inter0 with
  | .around _ _ _ ae pe => (pe, [⟨p0, ae, pe⟩])
  | r => (r.intersection, [])

/-- `_line_outgoing_point(inter1)` from `path_offset.py`: `ante_extended`
for an around record, otherwise the intersection point. -/
def lineOutgoingPoint (inter1 : LineLineRes K) : Vec2 K :=
  match inter1 with
  | .around _ _ _ ae _ => ae
  | r => r.intersection

/-- `offset_path` with the attribute slip repaired, for an all-line path
(the regime of scenario S1).  Emission follows the source: a `MoveTo` to
`inters[0].intersection`, then per entry of
`zip(items[1:], offsets, inters[:-1], inters[1:])` (which stops after
`n - 1` segments) the `_line_ante` triangles' `off1` vertices as `LineTo`s
followed by a `LineTo` to `_line_outgoing_point(inter1)`, and a final
`ClosePath`.  The previous point of `items[j+1]` is `pts[j]`, zipped
alongside. -/
def offset_path_fixed (sqrt : K → K) (items : List (SvgIn K)) (d : K) :
    Except PyErr (List (SvgOut K)) :=
  match prepare_offset_data_fixed sqrt items d with
  | .error e => .error e
  | .ok data =>
    let dflRes : LineLineRes K := .inter 0 0 ⟨0, 0⟩
    let first := SvgOut.moveTo (data.inters.getD 0 dflRes).intersection
    let quints := data.pts.zip ((items.drop 1).zip (data.offsets.zip
      (data.inters.dropLast.zip (data.inters.drop 1))))
    let body := quints.flatMap (fun quint =>
      let p0 := quint.1
      let i0 := quint.2.2.2.1
      let i1 := quint.2.2.2.2
      let at0 := lineAnte p0 i0
      at0.2.map (fun tri => SvgOut.lineTo tri.off1) ++
        [SvgOut.lineTo (lineOutgoingPoint i1)])
    .ok ([first] ++ body ++ [SvgOut.closePath])

/-- Specification-side helper: `th` lies on the counter-clockwise angular
range from `a` to `b` (all in degrees, modulo 360): the angular distance
travelled counter-clockwise from `a` to `th` does not exceed the one from
`a` to `b`. -/
def ccwAngleMem [FloorRing K] (a b th : K) : Prop :=
  mod360 (th - a) ≤ mod360 (b - a)

/-- Specification-side oriented angular-interval membership for an arc
`(θ0, Δθ)`: for `Δθ ≥ 0` the covered range runs counter-clockwise from
`θ0` to `θ0 + Δθ`; for `Δθ < 0` it is the same set traversed clockwise,
i.e. the counter-clockwise range from `θ0 + Δθ` to `θ0`.  The range is
determined by the endpoint residues alone (no clamping for `|Δθ| > 360`). -/
def specAngleMem [FloorRing K] (theta0 dtheta th : K) : Prop :=
  if 0 ≤ dtheta then ccwAngleMem theta0 (theta0 + dtheta) th
  else ccwAngleMem (theta0 + dtheta) theta0 th

/-- The angular-range condition exactly as claim C5 words it: oriented
interval between the endpoint residues, but with the covered range clamped
to the full circle when `|Δθ| > 360` (so that every angle satisfies it). -/
def claimAngleCond [FloorRing K] (theta0 dtheta th : K) : Prop :=
  if 360 < |dtheta| then True else specAngleMem theta0 dtheta th

/-- The parallelism test for two segments: the cross product of their
direction vectors.  The segments are non-parallel (and non-degenerate) iff
it is nonzero. -/
def linesCross (l0 l1 : Line K) : K :=
  l0.delta.x * l1.delta.y - l0.delta.y * l1.delta.x

/-- The decimal rendering performed by `rat_to_dec` (`math.py`):
`canonical_decimal(Decimal(str(x.evalf(n=getcontext().prec))))` with the
default 28-digit decimal context.  `evalf` (backed by mpmath) rounds the
exact value to `prec` significant digits, to nearest.  `RoundsToSig prec x
q` states that the decimal value `q` is that rendering of the exact
coordinate `x`: with `e` the decimal exponent of `x`, `q` is an integer
multiple of `10^(e+1-prec)` lying strictly within half an ulp of `x` (the
strict bound also certifies that `x` is not a rounding tie, so every
round-to-nearest mode produces `q`). -/
def RoundsToSig (prec : ℕ) (x : ℝ) (q : ℚ) : Prop :=
  ∃ e : ℤ, (10 : ℝ) ^ e ≤ |x| ∧ |x| < (10 : ℝ) ^ (e + 1) ∧
    (∃ m : ℤ, (q : ℝ) = m * (10 : ℝ) ^ (e + 1 - prec)) ∧
    |x - (q : ℝ)| < (10 : ℝ) ^ (e + 1 - prec) / 2

/-- Scenario S1's input path `M 0 0 L 1 1 H 0 Z`. -/
def triangleS1 (K : Type) [LinearOrderedField K] : List (SvgIn K) :=
  [.moveTo 0 0, .lineTo 1 1, .horizontalTo 0, .closePath]

/-- Concrete instantiation of the symbolic square root over `ℚ`, used only
to instantiate witnesses and counterexamples; it is correct on the inputs
those concrete computations reach (`1`). -/
def usq (q : ℚ) : ℚ :=
  if q = 1 then 1 else 0

end SvgOffset

namespace SvgOffset

/-! ## Theorems -/

variable {K : Type} [LinearOrderedField K]

@[simp] theorem Vec2.add_x (v w : Vec2 K) : (v + w).x = v.x + w.x := rfl

@[simp] theorem Vec2.add_y (v w : Vec2 K) : (v + w).y = v.y + w.y := rfl

@[simp] theorem Vec2.sub_x (v w : Vec2 K) : (v - w).x = v.x - w.x := rfl

@[simp] theorem Vec2.sub_y (v w : Vec2 K) : (v - w).y = v.y - w.y := rfl

@[simp] theorem Vec2.neg_x (v : Vec2 K) : (-v).x = -v.x := rfl

@[simp] theorem Vec2.neg_y (v : Vec2 K) : (-v).y = -v.y := rfl

@[simp] theorem Vec2.smul_x (v : Vec2 K) (c : K) : (v * c).x = v.x * c := rfl

@[simp] theorem Vec2.smul_y (v : Vec2 K) (c : K) : (v * c).y = v.y * c := rfl

@[simp] theorem Vec2.div_x (v : Vec2 K) (c : K) : (v / c).x = v.x / c := rfl

@[simp] theorem Vec2.div_y (v : Vec2 K) (c : K) : (v / c).y = v.y / c := rfl

@[simp] theorem Vec2.swapped_x (v : Vec2 K) : v.swapped.x = v.y := rfl

@[simp] theorem Vec2.swapped_y (v : Vec2 K) : v.swapped.y = v.x := rfl

@[simp] theorem Line.eval_x (l : Line K) (t : K) :
    (l.eval t).x = l.p.x + (l.q.x - l.p.x) * t := rfl

@[simp] theorem Line.eval_y (l : Line K) (t : K) :
    (l.eval t).y = l.p.y + (l.q.y - l.p.y) * t := rfl

@[simp] theorem Line.delta_x (l : Line K) : l.delta.x = l.q.x - l.p.x := rfl

@[simp] theorem Line.delta_y (l : Line K) : l.delta.y = l.q.y - l.p.y := rfl

@[simp] theorem Vec2.mk_add_mk (a b c d : K) :
    (⟨a, b⟩ : Vec2 K) + ⟨c, d⟩ = ⟨a + c, b + d⟩ := rfl

@[simp] theorem Vec2.mk_sub_mk (a b c d : K) :
    (⟨a, b⟩ : Vec2 K) - ⟨c, d⟩ = ⟨a - c, b - d⟩ := rfl

@[simp] theorem Vec2.neg_mk (a b : K) : -(⟨a, b⟩ : Vec2 K) = ⟨-a, -b⟩ := rfl

@[simp] theorem Vec2.mk_mul (a b c : K) :
    (⟨a, b⟩ : Vec2 K) * c = ⟨a * c, b * c⟩ := rfl

@[simp] theorem Vec2.mk_div (a b c : K) :
    (⟨a, b⟩ : Vec2 K) / c = ⟨a / c, b / c⟩ := rfl

@[simp] theorem Vec2.mk_swapped (a b : K) :
    Vec2.swapped (⟨a, b⟩ : Vec2 K) = ⟨b, a⟩ := rfl

theorem Line.delta_def (l : Line K) :
    l.delta = ⟨l.q.x - l.p.x, l.q.y - l.p.y⟩ := rfl

theorem Line.eval_def (l : Line K) (t : K) :
    l.eval t = ⟨l.p.x + (l.q.x - l.p.x) * t, l.p.y + (l.q.y - l.p.y) * t⟩ := by
  show l.p + (l.q - l.p) * t = _
  obtain ⟨⟨a, b⟩, ⟨c, d⟩⟩ := l
  simp

/-- Claim C4 (amended): with a supplied `Precision`, `eq(a, b, n)` holds iff
`|a - b| ≤ 10^(-baseline)` — the comparison the relaxed predicate performs
is the *non-strict* `LessThan`; without a precision it is the exact
equality. -/
theorem c4_eq_relaxed_nonstrict (a b : K) (n : Precision) :
    (eqRel a b (some n) ↔ |a - b| ≤ 1 / 10 ^ n.baseline) ∧
    (eqRel a b none ↔ a = b) :=
  ⟨Iff.rfl, Iff.rfl⟩

/-- Claim C4, counterexample to the claim as stated: with `baseline = 1`,
`a = 0`, `b = 1/10` the difference is exactly `10^(-baseline)`; the claim
says `eq` must then be false, but the code's non-strict comparison accepts
it. -/
theorem c4_counterexample :
    eqRel (0 : ℚ) (1 / 10) (some ⟨1, 0⟩) ∧
      ¬ |(0 : ℚ) - 1 / 10| < 1 / 10 ^ (1 : ℕ) := by
  have habs : |(0 : ℚ) - 1 / 10| = 1 / 10 := by
    rw [zero_sub, abs_neg, abs_of_nonneg (by norm_num : (0 : ℚ) ≤ 1 / 10)]
  constructor
  · show |(0 : ℚ) - 1 / 10| ≤ 1 / 10 ^ (1 : ℕ)
    rw [habs]
    norm_num
  · rw [habs]
    norm_num

/-- Claim C6: the arc offset returns an arc with identical center, start
angle, sweep and rotation, and with both radii shifted by `-d` when the arc
is locally convex (`sign(Δθ) < 0` iff the boundary is CCW) and by `+d`
otherwise; no other field changes. -/
theorem c6_arc_offset_frame (arc : ParametricEllipticalArc K) (d : K)
    (is_ccw : Bool) :
    arc.offset d is_ccw =
      { c := arc.c
        r := ⟨arc.r.x + (if arc.dtheta < 0 ↔ is_ccw = true then -d else d),
              arc.r.y + (if arc.dtheta < 0 ↔ is_ccw = true then -d else d)⟩
        theta0 := arc.theta0
        dtheta := arc.dtheta
        phi := arc.phi } := by
  by_cases h : arc.dtheta < 0 <;> cases is_ccw <;>
    simp [ParametricEllipticalArc.offset, ParametricEllipticalArc.locally_convex, h]

/-- Claim C7: for an arc with nonzero radii, the inverse transform undoes
the forward transform exactly.  The analytic facts about the source's exact
`cos`/`sin` that the proof uses (evenness, oddness, and the Pythagorean
identity at the arc's rotation angle) are stated as hypotheses. -/
theorem c7_transform_round_trip (cosd sind : K → K)
    (arc : ParametricEllipticalArc K) (p : Vec2 K)
    (hcos : cosd (-arc.phi) = cosd arc.phi)
    (hsin : sind (-arc.phi) = -sind arc.phi)
    (hpy : cosd arc.phi ^ 2 + sind arc.phi ^ 2 = 1)
    (hrx : arc.r.x ≠ 0) (hry : arc.r.y ≠ 0) :
    arc.transform cosd sind (arc.transform cosd sind p false) true = p := by
  unfold ParametricEllipticalArc.transform rotationMatrix Mat2.apply
  simp only [Bool.false_eq_true, if_false, if_true, Vec2.add_x, Vec2.add_y,
    Vec2.sub_x, Vec2.sub_y, hcos, hsin]
  obtain ⟨px, py⟩ := p
  simp only
  congr 1
  · field_simp
    linear_combination px * arc.r.x * hpy
  · field_simp
    linear_combination py * arc.r.y * hpy

/-- Claim C7, witness at a concrete instance. -/
theorem c7_witness :
    ParametricEllipticalArc.transform (fun _ => (1 : ℚ)) (fun _ => 0)
      ⟨⟨5, 7⟩, ⟨1, 2⟩, 0, 90, 0⟩
      (ParametricEllipticalArc.transform (fun _ => (1 : ℚ)) (fun _ => 0)
        ⟨⟨5, 7⟩, ⟨1, 2⟩, 0, 90, 0⟩ ⟨3, 4⟩ false) true = ⟨3, 4⟩ :=
  c7_transform_round_trip (fun _ => (1 : ℚ)) (fun _ => 0) ⟨⟨5, 7⟩, ⟨1, 2⟩, 0, 90, 0⟩
    ⟨3, 4⟩ rfl (by norm_num) (by norm_num) (by norm_num) (by norm_num)

/-- Claim C8: `polynomial_roots(x^2 + 8, x, real_only=True)` is the empty
mapping and `polynomial_roots((x+1)^3, x)` maps the single root `-1` to
multiplicity 3.  The polynomials are given by their descending coefficient
lists; the last two conjuncts identify those lists with the claimed
polynomials.  The only analytic fact used is `sqrt 0 = 0`. -/
theorem c8_polynomial_roots_scenarios (cbrt sqrt acosf cosf : K → K)
    (pi : K) (hs0 : sqrt 0 = 0) :
    polynomial_roots cbrt sqrt acosf cosf pi [1, 0, 8] true = .ok [] ∧
    polynomial_roots cbrt sqrt acosf cosf pi [1, 3, 3, 1] true =
      .ok [(⟨-1, 0⟩, 3)] ∧
    (∀ x : K, evalPoly [1, 0, 8] x = x ^ 2 + 8) ∧
    (∀ x : K, evalPoly [1, 3, 3, 1] x = (x + 1) ^ 3) := by
  refine ⟨?_, ?_, ?_, ?_⟩
  · have hA : allCoeffs ([1, 0, 8] : List K) = [1, 0, 8] := by
      simp [allCoeffs]
    have hq : quadratic_roots sqrt ((0 : K) / 1) ((8 : K) / 1) true = [] := by
      unfold quadratic_roots
      rw [if_neg]
      simp only [Bool.not_true, Bool.false_or, decide_eq_true_eq]
      norm_num
    unfold polynomial_roots
    rw [hA]
    show Except.ok (countList (quadratic_roots sqrt ((0 : K) / 1) ((8 : K) / 1) true)) = _
    rw [hq]
    rfl
  · have hA : allCoeffs ([1, 3, 3, 1] : List K) = [1, 3, 3, 1] := by
      simp [allCoeffs]
    have hc : cubic_roots cbrt sqrt acosf cosf pi ((3 : K) / 1) ((3 : K) / 1)
        ((1 : K) / 1) true = [⟨-1, 0⟩, ⟨-1, 0⟩, ⟨-1, 0⟩] := by
      unfold cubic_roots
      have hq : (3 : K) / 1 / 3 - ((3 : K) / 1) ^ 2 / 9 = 0 := by norm_num
      have hr : ((3 : K) / 1 * ((3 : K) / 1) - 3 * ((1 : K) / 1)) / 6 -
          ((3 : K) / 1) ^ 3 / 27 = 0 := by norm_num
      rw [hq, hr]
      rw [if_neg (by norm_num)]
      rw [if_pos rfl]
      rw [neg_zero, hs0]
      norm_num
    unfold polynomial_roots
    rw [hA]
    show Except.ok (countList (cubic_roots cbrt sqrt acosf cosf pi ((3 : K) / 1)
      ((3 : K) / 1) ((1 : K) / 1) true)) = _
    rw [hc]
    simp [countList]
  · intro x
    simp [evalPoly]
    ring
  · intro x
    simp [evalPoly]
    ring

/-- Claim C8, witness at a concrete instantiation of the symbolic
parameters. -/
theorem c8_witness :
    polynomial_roots (fun _ => (0 : ℚ)) usq (fun _ => 0) (fun _ => 0) 0
      [1, 0, 8] true = .ok [] ∧
    polynomial_roots (fun _ => (0 : ℚ)) usq (fun _ => 0) (fun _ => 0) 0
      [1, 3, 3, 1] true = .ok [(⟨-1, 0⟩, 3)] := by
  have h := c8_polynomial_roots_scenarios (K := ℚ) (fun _ => 0) usq
    (fun _ => 0) (fun _ => 0) 0 (by norm_num [usq])
  exact ⟨h.1, h.2.1⟩

/-- Claim C9: `polynomial_roots` returns the empty mapping for a nonzero
constant polynomial, the `InfinitelyManySolutions` error for the zero
polynomial, and the `DegreeUnsupported` error for every polynomial of
degree greater than 4 (leading coefficient nonzero, at least six
coefficients); the `Except` result carries no root mapping alongside an
error. -/
theorem c9_polynomial_roots_degree_errors :
    (∀ (cbrt sqrt acosf cosf : K → K) (pi : K) (real_only : Bool) (a0 : K),
      a0 ≠ 0 →
      polynomial_roots cbrt sqrt acosf cosf pi [a0] real_only = .ok []) ∧
    (∀ (cbrt sqrt acosf cosf : K → K) (pi : K) (real_only : Bool),
      polynomial_roots cbrt sqrt acosf cosf pi [(0 : K)] real_only =
        .error .infinitelyManySolutions) ∧
    (∀ (cbrt sqrt acosf cosf : K → K) (pi : K) (real_only : Bool)
       (a : K) (rest : List K), a ≠ 0 → 5 ≤ rest.length →
      polynomial_roots cbrt sqrt acosf cosf pi (a :: rest) real_only =
        .error .degreeUnsupported) := by
  refine ⟨?_, ?_, ?_⟩
  · intro cbrt sqrt acosf cosf pi real_only a0 h
    have hA : allCoeffs ([a0] : List K) = [a0] := by
      simp [allCoeffs, h]
    unfold polynomial_roots
    rw [hA]
    show (if a0 = 0 then _ else _) = _
    rw [if_neg h]
  · intro cbrt sqrt acosf cosf pi real_only
    have hA : allCoeffs ([(0 : K)] : List K) = [0] := by
      simp [allCoeffs]
    unfold polynomial_roots
    rw [hA]
    show (if (0 : K) = 0 then _ else _) = _
    rw [if_pos rfl]
  · intro cbrt sqrt acosf cosf pi real_only a rest ha hlen
    obtain ⟨b1, rest, rfl⟩ : ∃ b l, rest = b :: l := by
      cases rest with
      | nil => simp at hlen
      | cons b l => exact ⟨b, l, rfl⟩
    obtain ⟨b2, rest, rfl⟩ : ∃ b l, rest = b :: l := by
      cases rest with
      | nil => simp at hlen
      | cons b l => exact ⟨b, l, rfl⟩
    obtain ⟨b3, rest, rfl⟩ : ∃ b l, rest = b :: l := by
      cases rest with
      | nil => simp at hlen
      | cons b l => exact ⟨b, l, rfl⟩
    obtain ⟨b4, rest, rfl⟩ : ∃ b l, rest = b :: l := by
      cases rest with
      | nil => simp at hlen
      | cons b l => exact ⟨b, l, rfl⟩
    obtain ⟨b5, rest, rfl⟩ : ∃ b l, rest = b :: l := by
      cases rest with
      | nil => simp at hlen
      | cons b l => exact ⟨b, l, rfl⟩
    have hA : allCoeffs (a :: b1 :: b2 :: b3 :: b4 :: b5 :: rest) =
        a :: b1 :: b2 :: b3 :: b4 :: b5 :: rest := by
      simp [allCoeffs, ha]
    unfold polynomial_roots
    rw [hA]

/-- Claim C9, witness at concrete inputs for all three conjuncts. -/
theorem c9_witness :
    polynomial_roots (fun _ => (0 : ℚ)) usq (fun _ => 0) (fun _ => 0) 0
      [5] true = .ok [] ∧
    polynomial_roots (fun _ => (0 : ℚ)) usq (fun _ => 0) (fun _ => 0) 0
      [(0 : ℚ)] true = .error .infinitelyManySolutions ∧
    polynomial_roots (fun _ => (0 : ℚ)) usq (fun _ => 0) (fun _ => 0) 0
      [1, 0, 0, 0, 0, 0] true = .error .degreeUnsupported := by
  refine ⟨?_, ?_, ?_⟩
  · exact c9_polynomial_roots_degree_errors.1 _ usq _ _ 0 true 5 (by norm_num)
  · exact c9_polynomial_roots_degree_errors.2.1 _ usq _ _ 0 true
  · exact c9_polynomial_roots_degree_errors.2.2 _ usq _ _ 0 true 1
      [0, 0, 0, 0, 0] (by norm_num) (by norm_num)

@[simp] theorem Line.swapped_delta_x (l : Line K) :
    l.swapped.delta.x = l.delta.y := rfl

@[simp] theorem Line.swapped_delta_y (l : Line K) :
    l.swapped.delta.y = l.delta.x := rfl

theorem Line.swapped_eval (l : Line K) (t : K) :
    l.swapped.eval t = (l.eval t).swapped := rfl

/-- For non-parallel lines with `l1` non-vertical, `intersect_non_vertical`
returns the `LineIntersection` whose parameters are the (unique) solution of
`l0(t) = l1(u)`. -/
theorem intersect_non_vertical_eq (l0 l1 : Line K) (t u : K)
    (hd1 : l1.delta.x ≠ 0) (hcross : linesCross l0 l1 ≠ 0)
    (hsol : l0.eval t = l1.eval u) :
    intersect_non_vertical l0 l1 = some (.inter t u (l0.eval t)) := by
  have hd1' : l1.q.x - l1.p.x ≠ 0 := hd1
  have hx : l0.p.x + (l0.q.x - l0.p.x) * t = l1.p.x + (l1.q.x - l1.p.x) * u := by
    have := congrArg Vec2.x hsol
    simpa using this
  have hy : l0.p.y + (l0.q.y - l0.p.y) * t = l1.p.y + (l1.q.y - l1.p.y) * u := by
    have := congrArg Vec2.y hsol
    simpa using this
  have hu : nv_uAt l0 l1 t = u := by
    unfold nv_uAt
    simp only [Line.delta_x]
    rw [div_eq_iff hd1']
    linear_combination hx
  have hslope : ¬ nv_polyAt l0 l1 1 - nv_polyAt l0 l1 0 = 0 := by
    intro h
    apply hcross
    unfold nv_polyAt nv_uAt at h
    simp only [Line.eval_x, Line.eval_y, Line.delta_x, Line.delta_y] at h
    simp only [linesCross, Line.delta_x, Line.delta_y]
    field_simp at h
    linear_combination -h
  have hpt : nv_polyAt l0 l1 t = 0 := by
    unfold nv_polyAt
    rw [hu]
    exact sub_eq_zero.mpr (congrArg Vec2.y hsol)
  have haff : nv_polyAt l0 l1 t =
      nv_polyAt l0 l1 0 + (nv_polyAt l0 l1 1 - nv_polyAt l0 l1 0) * t := by
    unfold nv_polyAt nv_uAt
    simp only [Line.eval_x, Line.eval_y, Line.delta_x, Line.delta_y]
    ring
  have ht : -nv_polyAt l0 l1 0 / (nv_polyAt l0 l1 1 - nv_polyAt l0 l1 0) = t := by
    rw [div_eq_iff hslope]
    have h0 := hpt
    rw [haff] at h0
    linear_combination -h0
  simp only [intersect_non_vertical]
  rw [if_neg hslope, ht, hu]

/-- For non-parallel segments, `intersect_lines_raw` returns the
`LineIntersection` at the (unique) solution parameters of `l0(t) = l1(u)`,
through either the direct or the coordinate-swapped branch. -/
theorem intersect_lines_raw_eq (l0 l1 : Line K) (t u : K)
    (hcross : linesCross l0 l1 ≠ 0) (hsol : l0.eval t = l1.eval u) :
    intersect_lines_raw l0 l1 = some (.inter t u (l0.eval t)) := by
  unfold intersect_lines_raw
  by_cases hd1 : l1.delta.x = 0
  · rw [if_pos hd1]
    have hd1y : l1.swapped.delta.x ≠ 0 := by
      simp only [Line.swapped_delta_x]
      intro h0
      apply hcross
      simp only [linesCross]
      rw [hd1, h0]
      ring
    have hcross' : linesCross l0.swapped l1.swapped ≠ 0 := by
      have : linesCross l0.swapped l1.swapped = -linesCross l0 l1 := by
        simp only [linesCross, Line.swapped_delta_x, Line.swapped_delta_y]
        ring
      rw [this]
      exact neg_ne_zero.mpr hcross
    have hsol' : l0.swapped.eval t = l1.swapped.eval u := by
      rw [Line.swapped_eval, Line.swapped_eval, hsol]
    rw [intersect_non_vertical_eq l0.swapped l1.swapped t u hd1y hcross' hsol']
    rfl
  · rw [if_neg hd1]
    exact intersect_non_vertical_eq l0 l1 t u hd1 hcross hsol

/-- Claim C2: for non-parallel segments with line-line solution parameters
`(t, u)`, the segment version returns that `LineIntersection` (for any `d`)
iff `t ≥ 0` and `u ≤ 1`; and when this one-sided acceptance fails and a
nonzero offset distance is supplied, a `LineAroundIntersection` is produced
instead. -/
theorem c2_segment_acceptance (sqrt : K → K) (l0 l1 : Line K) (t u : K)
    (hcross : linesCross l0 l1 ≠ 0) (hsol : l0.eval t = l1.eval u) :
    (∀ d : Option K,
      intersect_lines sqrt l0 l1 d = some (.inter t u (l0.eval t)) ↔
        0 ≤ t ∧ u ≤ 1) ∧
    (∀ dv : K, dv ≠ 0 → ¬(0 ≤ t ∧ u ≤ 1) →
      ∃ i a p ae pe,
        intersect_lines sqrt l0 l1 (some dv) = some (.around i a p ae pe)) := by
  have hraw := intersect_lines_raw_eq l0 l1 t u hcross hsol
  constructor
  · intro d
    unfold intersect_lines
    rw [hraw]
    simp only [LineRaw.t, LineRaw.u, LineRaw.toRes]
    by_cases hacc : 0 ≤ t ∧ u ≤ 1
    · rw [if_pos hacc]
      simp [hacc]
    · rw [if_neg hacc]
      simp only [hacc, iff_false]
      cases d with
      | none => simp [aroundFallback]
      | some dv =>
        by_cases h0 : dv = 0 <;> simp [aroundFallback, h0]
  · intro dv hdv hacc
    unfold intersect_lines
    rw [hraw]
    simp only [LineRaw.t, LineRaw.u]
    rw [if_neg hacc]
    simp only [aroundFallback]
    rw [if_neg hdv]
    exact ⟨_, _, _, _, _, rfl⟩

/-- Claim C2, witness: two concrete non-parallel segments (the second one
vertical) whose unique solution parameters `(1/2, 1/2)` are accepted. -/
theorem c2_witness :
    intersect_lines usq ⟨⟨0, 0⟩, ⟨2, 0⟩⟩ ⟨⟨1, -1⟩, ⟨1, 1⟩⟩ none =
      some (.inter (1 / 2) (1 / 2) ⟨1, 0⟩) := by
  have h := (c2_segment_acceptance usq ⟨⟨0, 0⟩, ⟨2, 0⟩⟩ ⟨⟨1, -1⟩, ⟨1, 1⟩⟩
    (1 / 2) (1 / 2) (by norm_num [linesCross])
    (by norm_num [Line.eval_def])).1 none
  refine (h.mpr (by norm_num)).trans ?_
  norm_num [Line.eval_def]

/-- Claim C3, counterexample to the claim as stated: for the segments
`(0,0)-(1,0)` and `(-2,1)-(-2,2)` (no accepted segment intersection) and
`d = -1`, the produced `ante_extended` is `(0,0)`, not the claimed
`end + |d| * direction = (2,0)`: the code offsets by the *signed* `d`. -/
theorem c3_counterexample :
    intersect_lines usq ⟨⟨0, 0⟩, ⟨1, 0⟩⟩ ⟨⟨-2, 1⟩, ⟨-2, 2⟩⟩ (some (-1)) =
      some (.around ⟨-1, 1⟩ ⟨1, 0⟩ ⟨-2, 1⟩ ⟨0, 0⟩ ⟨-2, 2⟩) ∧
    (⟨0, 0⟩ : Vec2 ℚ) ≠
      (⟨1, 0⟩ : Vec2 ℚ) +
        Vec2.normalized usq (Line.delta ⟨⟨0, 0⟩, ⟨1, 0⟩⟩) * |(-1 : ℚ)| := by
  constructor
  · norm_num [intersect_lines, intersect_lines_raw, intersect_non_vertical,
      nv_polyAt, nv_uAt, aroundFallback, Line.eval_def, Line.delta_def,
      Line.swapped, Vec2.normalized, Vec2.len, usq, LineRaw.t, LineRaw.u,
      LineRaw.toRes, LineRaw.swapped]
  · norm_num [Vec2.normalized, Vec2.len, usq, Line.delta_def]

/-- Claim C3 (amended): when no accepted segment intersection exists and a
nonzero `d` of either sign is supplied, the `LineAroundIntersection` has
`ante_extended = l0.q + d * normalized(l0.delta)` and
`post_extended = l1.p - d * normalized(l1.delta)` — the extension uses the
*signed* value `d = dec_to_rat(d)`, not `|d|` — and `intersection` is the
midpoint of the two extended points. -/
theorem c3_around_record_signed (sqrt : K → K) (l0 l1 : Line K) (dv : K)
    (hdv : dv ≠ 0)
    (hno : ∀ r : LineRaw K, intersect_lines_raw l0 l1 = some r →
      ¬(0 ≤ r.t ∧ r.u ≤ 1)) :
    intersect_lines sqrt l0 l1 (some dv) =
      some (.around
        ((l0.q + Vec2.normalized sqrt l0.delta * dv +
          (l1.p - Vec2.normalized sqrt l1.delta * dv)) * ((1 : K) / 2))
        l0.q l1.p
        (l0.q + Vec2.normalized sqrt l0.delta * dv)
        (l1.p - Vec2.normalized sqrt l1.delta * dv)) := by
  unfold intersect_lines
  simp only [aroundFallback]
  cases hraw : intersect_lines_raw l0 l1 with
  | none =>
    simp only []
    rw [if_neg hdv]
  | some r =>
    simp only []
    rw [if_neg (hno r hraw), if_neg hdv]

/-- Claim C3 (amended), witness: the same segment pair with `d = 2`. -/
theorem c3_witness :
    intersect_lines usq ⟨⟨0, 0⟩, ⟨1, 0⟩⟩ ⟨⟨-2, 1⟩, ⟨-2, 2⟩⟩ (some 2) =
      some (.around ⟨1 / 2, -1 / 2⟩ ⟨1, 0⟩ ⟨-2, 1⟩ ⟨3, 0⟩ ⟨-2, -1⟩) := by
  have hraweq : intersect_lines_raw (⟨⟨0, 0⟩, ⟨1, 0⟩⟩ : Line ℚ)
      ⟨⟨-2, 1⟩, ⟨-2, 2⟩⟩ = some (.inter (-2) (-1) ⟨-2, 0⟩) := by
    norm_num [intersect_lines_raw, intersect_non_vertical, nv_polyAt, nv_uAt,
      Line.eval_def, Line.delta_def, Line.swapped, Vec2.swapped,
      LineRaw.swapped]
  have hno : ∀ r : LineRaw ℚ,
      intersect_lines_raw (⟨⟨0, 0⟩, ⟨1, 0⟩⟩ : Line ℚ) ⟨⟨-2, 1⟩, ⟨-2, 2⟩⟩ =
        some r → ¬(0 ≤ r.t ∧ r.u ≤ 1) := by
    intro r hr
    rw [hraweq] at hr
    injection hr with h
    subst h
    norm_num [LineRaw.t, LineRaw.u]
  refine (c3_around_record_signed usq ⟨⟨0, 0⟩, ⟨1, 0⟩⟩ ⟨⟨-2, 1⟩, ⟨-2, 2⟩⟩ 2
    (by norm_num) hno).trans ?_
  norm_num [Vec2.normalized, Vec2.len, usq, Line.delta_def]

theorem mod360_nonneg [FloorRing K] (x : K) : 0 ≤ mod360 x := by
  unfold mod360
  have h := Int.floor_le (x / 360)
  have h2 : (360 : K) * ((⌊x / 360⌋ : ℤ) : K) ≤ 360 * (x / 360) := by
    have : (0 : K) ≤ 360 := by norm_num
    exact mul_le_mul_of_nonneg_left h this
  have h3 : (360 : K) * (x / 360) = x := by
    field_simp
  linarith

theorem mod360_lt [FloorRing K] (x : K) : mod360 x < 360 := by
  unfold mod360
  have h := Int.lt_floor_add_one (x / 360)
  have h2 : (360 : K) * (x / 360) < 360 * ((⌊x / 360⌋ : ℤ) + 1 : K) := by
    have : (0 : K) < 360 := by norm_num
    exact (mul_lt_mul_left this).mpr (by exact_mod_cast h)
  have h3 : (360 : K) * (x / 360) = x := by
    field_simp
  push_cast at h2
  linarith

theorem mod360_eq_of [FloorRing K] (x y : K) (h0 : 0 ≤ y) (h1 : y < 360)
    (k : ℤ) (hk : x - y = 360 * k) : mod360 x = y := by
  unfold mod360
  have hx : x = y + 360 * (k : K) := by
    have : (360 : K) * k = x - y := hk.symm
    linarith
  have hdiv : x / 360 = y / 360 + (k : K) := by
    rw [hx]
    field_simp
    ring
  have hfl : ⌊x / 360⌋ = k := by
    rw [hdiv]
    rw [show ((k : K)) = ((k : ℤ) : K) from rfl, Int.floor_add_int]
    have : ⌊y / 360⌋ = 0 := by
      rw [Int.floor_eq_zero_iff]
      constructor
      · positivity
      · rw [div_lt_one (by norm_num : (0 : K) < 360)]
        linarith
    rw [this]
    ring
  rw [hfl, hx]
  ring

theorem mod360_congr [FloorRing K] (x y : K) (k : ℤ) (h : x - y = 360 * k) :
    mod360 x = mod360 y := by
  refine mod360_eq_of x (mod360 y) (mod360_nonneg y) (mod360_lt y)
    (k + ⌊y / 360⌋) ?_
  unfold mod360
  push_cast
  linarith [h]

/-- The interval/wrap-around test performed by `angle_condition` on residues
in `[0, 360)` is exactly counter-clockwise angular-range membership. -/
theorem arcRange_iff [FloorRing K] (a b th : K)
    (ha : 0 ≤ a) (ha' : a < 360) (hb : 0 ≤ b) (hb' : b < 360)
    (hth : 0 ≤ th) (hth' : th < 360) :
    (if a ≤ b then a ≤ th ∧ th ≤ b else a ≤ th ∨ th ≤ b) ↔
      mod360 (th - a) ≤ mod360 (b - a) := by
  have h1 : mod360 (th - a) = if a ≤ th then th - a else th - a + 360 := by
    split_ifs with h
    · exact mod360_eq_of _ _ (by linarith) (by linarith) 0 (by push_cast; ring)
    · exact mod360_eq_of _ _ (by linarith) (by linarith) (-1) (by push_cast; ring)
  have h2 : mod360 (b - a) = if a ≤ b then b - a else b - a + 360 := by
    split_ifs with h
    · exact mod360_eq_of _ _ (by linarith) (by linarith) 0 (by push_cast; ring)
    · exact mod360_eq_of _ _ (by linarith) (by linarith) (-1) (by push_cast; ring)
  rw [h1, h2]
  split_ifs with hab hath hath
  · constructor
    · rintro ⟨x1, x2⟩
      linarith
    · intro h
      exact ⟨hath, by linarith⟩
  · constructor
    · rintro ⟨x1, x2⟩
      exact absurd x1 hath
    · intro h
      linarith
  · constructor
    · intro h
      linarith
    · intro h
      exact Or.inl hath
  · constructor
    · rintro (h | h)
      · exact absurd h hath
      · linarith
    · intro h
      exact Or.inr (by linarith)

/-- Claim C5 (amended): `angle_condition(θ)` holds iff `θ mod 360` lies on
the angular interval between `θ0 mod 360` and `(θ0 + Δθ) mod 360`, oriented
by the sign of `Δθ` with wrap-around; the covered range is determined by the
endpoint residues and the sign alone — there is **no** clamping to the full
circle for `|Δθ| > 360`. -/
theorem c5_angle_condition_oriented [FloorRing K]
    (arc : ParametricEllipticalArc K) (theta : K) :
    arc.angle_condition theta = true ↔
      specAngleMem arc.theta0 arc.dtheta theta := by
  have e1 : mod360 (mod360 theta - mod360 arc.theta0) =
      mod360 (theta - arc.theta0) := by
    refine mod360_congr _ _ (⌊arc.theta0 / 360⌋ - ⌊theta / 360⌋) ?_
    unfold mod360
    push_cast
    ring
  have e2 : mod360 (mod360 arc.theta1 - mod360 arc.theta0) =
      mod360 (arc.theta0 + arc.dtheta - arc.theta0) := by
    refine mod360_congr _ _ (⌊arc.theta0 / 360⌋ - ⌊arc.theta1 / 360⌋) ?_
    unfold mod360 ParametricEllipticalArc.theta1
    push_cast
    ring
  have e3 : mod360 (mod360 theta - mod360 arc.theta1) =
      mod360 (theta - (arc.theta0 + arc.dtheta)) := by
    refine mod360_congr _ _ (⌊arc.theta1 / 360⌋ - ⌊theta / 360⌋) ?_
    unfold mod360 ParametricEllipticalArc.theta1
    push_cast
    ring
  have e4 : mod360 (mod360 arc.theta0 - mod360 arc.theta1) =
      mod360 (arc.theta0 + arc.dtheta - (arc.theta0 + arc.dtheta) +
        (arc.theta0 - (arc.theta0 + arc.dtheta))) := by
    refine mod360_congr _ _ (⌊arc.theta1 / 360⌋ - ⌊arc.theta0 / 360⌋) ?_
    unfold mod360 ParametricEllipticalArc.theta1
    push_cast
    ring
  by_cases hd : 0 ≤ arc.dtheta
  · simp only [ParametricEllipticalArc.angle_condition, if_pos hd,
      specAngleMem, ccwAngleMem]
    rw [← e1, ← e2]
    rw [← arcRange_iff (mod360 arc.theta0) (mod360 arc.theta1) (mod360 theta)
      (mod360_nonneg _) (mod360_lt _) (mod360_nonneg _) (mod360_lt _)
      (mod360_nonneg _) (mod360_lt _)]
    split_ifs <;> simp
  · simp only [ParametricEllipticalArc.angle_condition, if_neg hd,
      specAngleMem, ccwAngleMem]
    have e2' : mod360 (arc.theta0 - (arc.theta0 + arc.dtheta)) =
        mod360 (mod360 arc.theta0 - mod360 arc.theta1) := by
      refine (mod360_congr _ _ (⌊arc.theta1 / 360⌋ - ⌊arc.theta0 / 360⌋) ?_).symm
      unfold mod360 ParametricEllipticalArc.theta1
      push_cast
      ring
    rw [← e3, e2']
    rw [← arcRange_iff (mod360 arc.theta1) (mod360 arc.theta0) (mod360 theta)
      (mod360_nonneg _) (mod360_lt _) (mod360_nonneg _) (mod360_lt _)
      (mod360_nonneg _) (mod360_lt _)]
    split_ifs <;> simp

/-- Claim C5, counterexample to the claim as stated: the arc `θ0 = 0`,
`Δθ = 450` covers, per the code, only the residue interval `[0, 90]`
(`t1 = 450 mod 360 = 90`), whereas the claim's clamping clause says every
angle (e.g. `θ = 180`) satisfies the condition. -/
theorem c5_counterexample :
    ¬ ((ParametricEllipticalArc.angle_condition
        (⟨⟨0, 0⟩, ⟨1, 1⟩, 0, 450, 0⟩ : ParametricEllipticalArc ℚ) 180 = true) ↔
      claimAngleCond (0 : ℚ) 450 180) := by
  intro h
  have h2 : claimAngleCond (0 : ℚ) 450 180 := by
    unfold claimAngleCond
    rw [if_pos (by norm_num)]
    trivial
  have h1 := h.mpr h2
  have h3 : ParametricEllipticalArc.angle_condition
      (⟨⟨0, 0⟩, ⟨1, 1⟩, 0, 450, 0⟩ : ParametricEllipticalArc ℚ) 180 = false := by
    have hm0 : mod360 (0 : ℚ) = 0 := mod360_eq_of _ _ le_rfl (by norm_num) 0
      (by push_cast; ring)
    have hm450 : mod360 ((450 : ℚ)) = 90 := mod360_eq_of _ _ (by norm_num)
      (by norm_num) 1 (by push_cast; ring)
    have hm180 : mod360 (180 : ℚ) = 180 := mod360_eq_of _ _ (by norm_num)
      (by norm_num) 0 (by push_cast; ring)
    simp only [ParametricEllipticalArc.angle_condition,
      ParametricEllipticalArc.theta1]
    rw [show (0 : ℚ) + 450 = 450 from by norm_num, hm0, hm450, hm180]
    norm_num
  rw [h3] at h1
  simp at h1

theorem aroundFallback_zero {A : Type} (mk : K → A) :
    aroundFallback (some (0 : K)) mk = none := by
  simp [aroundFallback]

theorem intersect_lines_zero (sqrt : K → K) (l0 l1 : Line K) :
    intersect_lines sqrt l0 l1 (some 0) = intersect_lines sqrt l0 l1 none := by
  unfold intersect_lines
  cases h : intersect_lines_raw l0 l1 with
  | none => simp [aroundFallback]
  | some r =>
    simp only []
    split_ifs
    · rfl
    · simp [aroundFallback]

theorem line_arc_core_zero [FloorRing K]
    (cbrt sqrt acosf cosf cosd sind : K → K) (pi : K) (atan2d : K → K → K)
    (lin : Line K) (arc : ParametricEllipticalArc K) (lba : Bool) :
    line_arc_core cbrt sqrt acosf cosf cosd sind pi atan2d lin arc lba
        (some 0) =
      line_arc_core cbrt sqrt acosf cosf cosd sind pi atan2d lin arc lba
        none := by
  unfold line_arc_core
  cases h : line_arc_search cbrt sqrt acosf cosf cosd sind pi atan2d lin arc
    lba with
  | error e => rfl
  | ok o =>
    cases o with
    | some r => rfl
    | none =>
      simp only []
      rw [aroundFallback_zero]
      rfl

theorem intersect_line_arc_zero [FloorRing K]
    (cbrt sqrt acosf cosf cosd sind : K → K) (pi : K) (atan2d : K → K → K)
    (lin : Line K) (arc : ParametricEllipticalArc K) (lba : Bool) :
    intersect_line_arc cbrt sqrt acosf cosf cosd sind pi atan2d lin arc lba
        (some 0) =
      intersect_line_arc cbrt sqrt acosf cosf cosd sind pi atan2d lin arc lba
        none := by
  unfold intersect_line_arc
  rw [line_arc_core_zero]

/-- Claim C10 (code_bug): dispatching `intersect` with `d = 0` behaves
exactly as with `d` absent, because the fallback guard `if not d` treats
`Decimal(0)` as falsy — for line-line and line-arc pairs the result is
`None` (no around record) when nothing intersects.  For arc-arc pairs,
however, *every* call of `intersect_arc_arc` in this snapshot raises
`TypeError` before reaching the guard: `intersect.py` line 587 calls
`resultant(imp0, imp1, y, n=n)` while `math.resultant` (line 540) requires
the four positional arguments `(f, g, x, y)` — so no result (neither `None`
nor an around record) is ever produced there, contradicting the claim; the
third conjunct evaluates the code at a concrete failing input (two
translates of the unit circle, `d = 0`). -/
theorem c10_zero_offset_distance [FloorRing K] :
    (∀ (cbrt sqrt acosf cosf cosd sind : K → K) (pi : K)
       (atan2d : K → K → K) (a b : Shape K),
      intersect cbrt sqrt acosf cosf cosd sind pi atan2d a b (some 0) =
        intersect cbrt sqrt acosf cosf cosd sind pi atan2d a b none) ∧
    (∀ (arc0 arc1 : ParametricEllipticalArc K) (d : Option K),
      intersect_arc_arc arc0 arc1 d = .error .typeErrorResultantArity) ∧
    intersect_arc_arc
        (⟨⟨0, 1⟩, ⟨1, 1⟩, -90, 180, 0⟩ : ParametricEllipticalArc ℚ)
        ⟨⟨0, 3⟩, ⟨1, 1⟩, -90, 180, 0⟩ (some 0) =
      .error .typeErrorResultantArity := by
  refine ⟨?_, fun _ _ _ => rfl, rfl⟩
  intro cbrt sqrt acosf cosf cosd sind pi atan2d a b
  cases a with
  | line l0 =>
    cases b with
    | line l1 =>
      simp only [intersect]
      rw [intersect_lines_zero]
    | arc arc =>
      simp only [intersect]
      rw [intersect_line_arc_zero]
  | arc arc0 =>
    cases b with
    | line l1 =>
      simp only [intersect]
      rw [intersect_line_arc_zero]
    | arc arc1 => rfl

/-- When the raw intersection parameters are accepted (`t ≥ 0`, `u ≤ 1`),
`intersect_lines` returns the `LineIntersection` for any `d`. -/
theorem intersect_lines_accepted (sqrt : K → K) (l0 l1 : Line K)
    (d : Option K) (t u : K) (hcross : linesCross l0 l1 ≠ 0)
    (hsol : l0.eval t = l1.eval u) (ht : 0 ≤ t) (hu : u ≤ 1) :
    intersect_lines sqrt l0 l1 d = some (.inter t u (l0.eval t)) := by
  unfold intersect_lines
  rw [intersect_lines_raw_eq l0 l1 t u hcross hsol]
  simp only [LineRaw.t, LineRaw.u, LineRaw.toRes]
  rw [if_pos ⟨ht, hu⟩]

/-- As `intersect_lines_accepted`, with the returned point given
explicitly. -/
theorem intersect_lines_accepted_pt (sqrt : K → K) (l0 l1 : Line K)
    (d : Option K) (t u : K) (pt : Vec2 K) (hcross : linesCross l0 l1 ≠ 0)
    (hsol : l0.eval t = l1.eval u) (ht : 0 ≤ t) (hu : u ≤ 1)
    (hpt : l0.eval t = pt) :
    intersect_lines sqrt l0 l1 d = some (.inter t u pt) := by
  rw [intersect_lines_accepted sqrt l0 l1 d t u hcross hsol ht hu, hpt]

theorem c1_off0 :
    Line.offset Real.sqrt ⟨⟨0, 0⟩, ⟨1, 1⟩⟩ (1 / 10) false =
      ⟨⟨-(Real.sqrt 2 / 20), Real.sqrt 2 / 20⟩,
       ⟨1 - Real.sqrt 2 / 20, 1 + Real.sqrt 2 / 20⟩⟩ := by
  have hs2 : Real.sqrt 2 * Real.sqrt 2 = 2 := Real.mul_self_sqrt (by norm_num)
  have hne : Real.sqrt 2 ≠ 0 := by positivity
  unfold Line.offset Line.inward_normal Vec2.normalized Vec2.len
  simp only [Line.delta_x, Line.delta_y, Bool.false_eq_true, if_false]
  rw [show (-((1 : ℝ) - 0)) * -((1 : ℝ) - 0) + ((1 : ℝ) - 0) * ((1 : ℝ) - 0)
    = 2 from by norm_num]
  rw [if_neg hne]
  simp only [Vec2.mk_div, Vec2.mk_mul, Vec2.mk_add_mk, Line.mk.injEq,
    Vec2.mk.injEq]
  refine ⟨⟨?_, ?_⟩, ?_, ?_⟩ <;> field_simp
  · linear_combination (-10 : ℝ) * hs2
  · linear_combination (-10 : ℝ) * hs2
  · linear_combination (10 : ℝ) * hs2
  · linear_combination (-10 : ℝ) * hs2

theorem c1_off1 :
    Line.offset Real.sqrt ⟨⟨1, 1⟩, ⟨0, 1⟩⟩ (1 / 10) false =
      ⟨⟨1, 9 / 10⟩, ⟨0, 9 / 10⟩⟩ := by
  unfold Line.offset Line.inward_normal Vec2.normalized Vec2.len
  simp only [Line.delta_x, Line.delta_y, Bool.false_eq_true, if_false]
  rw [show (-((1 : ℝ) - 1)) * -((1 : ℝ) - 1) + ((0 : ℝ) - 1) * ((0 : ℝ) - 1)
    = 1 from by norm_num]
  rw [Real.sqrt_one]
  rw [if_neg one_ne_zero]
  simp only [Vec2.mk_div, Vec2.mk_mul, Vec2.mk_add_mk, Line.mk.injEq,
    Vec2.mk.injEq]
  norm_num

theorem c1_off2 :
    Line.offset Real.sqrt ⟨⟨0, 1⟩, ⟨0, 0⟩⟩ (1 / 10) false =
      ⟨⟨1 / 10, 1⟩, ⟨1 / 10, 0⟩⟩ := by
  unfold Line.offset Line.inward_normal Vec2.normalized Vec2.len
  simp only [Line.delta_x, Line.delta_y, Bool.false_eq_true, if_false]
  rw [show (-((0 : ℝ) - 1)) * -((0 : ℝ) - 1) + ((0 : ℝ) - 0) * ((0 : ℝ) - 0)
    = 1 from by norm_num]
  rw [Real.sqrt_one]
  rw [if_neg one_ne_zero]
  simp only [Vec2.mk_div, Vec2.mk_mul, Vec2.mk_add_mk, Line.mk.injEq,
    Vec2.mk.injEq]
  norm_num

theorem c1_int0 :
    intersect_lines Real.sqrt ⟨⟨1 / 10, 1⟩, ⟨1 / 10, 0⟩⟩
      ⟨⟨-(Real.sqrt 2 / 20), Real.sqrt 2 / 20⟩,
       ⟨1 - Real.sqrt 2 / 20, 1 + Real.sqrt 2 / 20⟩⟩ (some (1 / 10)) =
      some (.inter (9 / 10 - Real.sqrt 2 / 10) (1 / 10 + Real.sqrt 2 / 20)
        ⟨1 / 10, 1 / 10 + Real.sqrt 2 / 10⟩) := by
  have hs2 : Real.sqrt 2 * Real.sqrt 2 = 2 := Real.mul_self_sqrt (by norm_num)
  have h0 : (0 : ℝ) ≤ Real.sqrt 2 := Real.sqrt_nonneg 2
  refine intersect_lines_accepted_pt Real.sqrt _ _ _ _ _ _ ?_ ?_ ?_ ?_ ?_
  · simp only [linesCross, Line.delta_x, Line.delta_y]
    ring_nf
    norm_num
  · simp only [Line.eval_def, Vec2.mk.injEq]
    constructor <;> ring
  · nlinarith [hs2, h0]
  · nlinarith [hs2, h0]
  · simp only [Line.eval_def, Vec2.mk.injEq]
    constructor <;> ring

theorem c1_int1 :
    intersect_lines Real.sqrt
      ⟨⟨-(Real.sqrt 2 / 20), Real.sqrt 2 / 20⟩,
       ⟨1 - Real.sqrt 2 / 20, 1 + Real.sqrt 2 / 20⟩⟩
      ⟨⟨1, 9 / 10⟩, ⟨0, 9 / 10⟩⟩ (some (1 / 10)) =
      some (.inter (9 / 10 - Real.sqrt 2 / 20) (1 / 10 + Real.sqrt 2 / 10)
        ⟨9 / 10 - Real.sqrt 2 / 10, 9 / 10⟩) := by
  have hs2 : Real.sqrt 2 * Real.sqrt 2 = 2 := Real.mul_self_sqrt (by norm_num)
  have h0 : (0 : ℝ) ≤ Real.sqrt 2 := Real.sqrt_nonneg 2
  refine intersect_lines_accepted_pt Real.sqrt _ _ _ _ _ _ ?_ ?_ ?_ ?_ ?_
  · simp only [linesCross, Line.delta_x, Line.delta_y]
    ring_nf
    norm_num
  · simp only [Line.eval_def, Vec2.mk.injEq]
    constructor <;> ring
  · nlinarith [hs2, h0]
  · nlinarith [hs2, h0]
  · simp only [Line.eval_def, Vec2.mk.injEq]
    constructor <;> ring

theorem c1_int2 :
    intersect_lines Real.sqrt ⟨⟨1, 9 / 10⟩, ⟨0, 9 / 10⟩⟩
      ⟨⟨1 / 10, 1⟩, ⟨1 / 10, 0⟩⟩ (some (1 / 10)) =
      some (.inter (9 / 10) (1 / 10) ⟨1 / 10, 9 / 10⟩) := by
  refine intersect_lines_accepted_pt Real.sqrt _ _ _ _ _ _ ?_ ?_ ?_ ?_ ?_
  · simp only [linesCross, Line.delta_x, Line.delta_y]
    norm_num
  · simp only [Line.eval_def, Vec2.mk.injEq]
    constructor <;> ring
  · norm_num
  · norm_num
  · simp only [Line.eval_def, Vec2.mk.injEq]
    constructor <;> norm_num

theorem c1_prepare :
    prepare_offset_data_fixed Real.sqrt (triangleS1 ℝ) (1 / 10) =
      .ok ⟨false, [⟨0, 0⟩, ⟨1, 1⟩, ⟨0, 1⟩],
        [⟨⟨-(Real.sqrt 2 / 20), Real.sqrt 2 / 20⟩,
          ⟨1 - Real.sqrt 2 / 20, 1 + Real.sqrt 2 / 20⟩⟩,
         ⟨⟨1, 9 / 10⟩, ⟨0, 9 / 10⟩⟩,
         ⟨⟨1 / 10, 1⟩, ⟨1 / 10, 0⟩⟩],
        [.inter (9 / 10 - Real.sqrt 2 / 10) (1 / 10 + Real.sqrt 2 / 20)
          ⟨1 / 10, 1 / 10 + Real.sqrt 2 / 10⟩,
         .inter (9 / 10 - Real.sqrt 2 / 20) (1 / 10 + Real.sqrt 2 / 10)
          ⟨9 / 10 - Real.sqrt 2 / 10, 9 / 10⟩,
         .inter (9 / 10) (1 / 10) ⟨1 / 10, 9 / 10⟩]⟩ := by
  have harea : polygon_signed_area ([⟨0, 0⟩, ⟨1, 1⟩, ⟨0, 1⟩] : List (Vec2 ℝ))
      = 1 / 2 := by
    unfold polygon_signed_area
    rw [show List.range ([(⟨0, 0⟩ : Vec2 ℝ), ⟨1, 1⟩, ⟨0, 1⟩].length) = [0, 1, 2]
      from rfl]
    simp only [List.foldl, List.getD]
    norm_num
  have hccw : decide (polygon_signed_area
      ([⟨0, 0⟩, ⟨1, 1⟩, ⟨0, 1⟩] : List (Vec2 ℝ)) < 0) = false := by
    apply decide_eq_false
    rw [harea]
    norm_num
  have hoffs : offsetSegments Real.sqrt [⟨0, 0⟩, ⟨1, 1⟩, ⟨0, 1⟩] (1 / 10) false
      = [⟨⟨-(Real.sqrt 2 / 20), Real.sqrt 2 / 20⟩,
          ⟨1 - Real.sqrt 2 / 20, 1 + Real.sqrt 2 / 20⟩⟩,
         ⟨⟨1, 9 / 10⟩, ⟨0, 9 / 10⟩⟩,
         ⟨⟨1 / 10, 1⟩, ⟨1 / 10, 0⟩⟩] := by
    show [Line.offset Real.sqrt ⟨⟨0, 0⟩, ⟨1, 1⟩⟩ (1 / 10) false,
          Line.offset Real.sqrt ⟨⟨1, 1⟩, ⟨0, 1⟩⟩ (1 / 10) false,
          Line.offset Real.sqrt ⟨⟨0, 1⟩, ⟨0, 0⟩⟩ (1 / 10) false] = _
    rw [c1_off0, c1_off1, c1_off2]
  have hints : offsetIntersections Real.sqrt
      [⟨⟨-(Real.sqrt 2 / 20), Real.sqrt 2 / 20⟩,
        ⟨1 - Real.sqrt 2 / 20, 1 + Real.sqrt 2 / 20⟩⟩,
       ⟨⟨1, 9 / 10⟩, ⟨0, 9 / 10⟩⟩,
       ⟨⟨1 / 10, 1⟩, ⟨1 / 10, 0⟩⟩] (1 / 10) =
      [some (.inter (9 / 10 - Real.sqrt 2 / 10) (1 / 10 + Real.sqrt 2 / 20)
        ⟨1 / 10, 1 / 10 + Real.sqrt 2 / 10⟩),
       some (.inter (9 / 10 - Real.sqrt 2 / 20) (1 / 10 + Real.sqrt 2 / 10)
        ⟨9 / 10 - Real.sqrt 2 / 10, 9 / 10⟩),
       some (.inter (9 / 10) (1 / 10) ⟨1 / 10, 9 / 10⟩)] := by
    show [intersect_lines Real.sqrt ⟨⟨1 / 10, 1⟩, ⟨1 / 10, 0⟩⟩
            ⟨⟨-(Real.sqrt 2 / 20), Real.sqrt 2 / 20⟩,
             ⟨1 - Real.sqrt 2 / 20, 1 + Real.sqrt 2 / 20⟩⟩ (some (1 / 10)),
          intersect_lines Real.sqrt
            ⟨⟨-(Real.sqrt 2 / 20), Real.sqrt 2 / 20⟩,
             ⟨1 - Real.sqrt 2 / 20, 1 + Real.sqrt 2 / 20⟩⟩
            ⟨⟨1, 9 / 10⟩, ⟨0, 9 / 10⟩⟩ (some (1 / 10)),
          intersect_lines Real.sqrt ⟨⟨1, 9 / 10⟩, ⟨0, 9 / 10⟩⟩
            ⟨⟨1 / 10, 1⟩, ⟨1 / 10, 0⟩⟩ (some (1 / 10))] = _
    rw [c1_int0, c1_int1, c1_int2]
  have hstep : prepare_offset_data_fixed Real.sqrt (triangleS1 ℝ) (1 / 10) =
      (let is_ccw := decide (polygon_signed_area
        ([⟨0, 0⟩, ⟨1, 1⟩, ⟨0, 1⟩] : List (Vec2 ℝ)) < 0)
       let offsets := offsetSegments Real.sqrt [⟨0, 0⟩, ⟨1, 1⟩, ⟨0, 1⟩]
         (1 / 10) is_ccw
       let inters := offsetIntersections Real.sqrt offsets (1 / 10)
       if inters.any Option.isNone then Except.error PyErr.assertionFailed
       else .ok ⟨is_ccw, [⟨0, 0⟩, ⟨1, 1⟩, ⟨0, 1⟩], offsets,
         inters.filterMap id⟩) := rfl
  rw [hstep]
  simp only []
  rw [hccw, hoffs, hints]
  rfl

theorem roundsToSig_of (x : ℝ) (q : ℚ) (e m : ℤ)
    (h1 : (10 : ℝ) ^ e ≤ |x|) (h2 : |x| < (10 : ℝ) ^ (e + 1))
    (h3 : (q : ℝ) = m * (10 : ℝ) ^ (e + 1 - 28))
    (h4 : |x - (q : ℝ)| < (10 : ℝ) ^ (e + 1 - 28) / 2) :
    RoundsToSig 28 x q :=
  ⟨e, h1, h2, ⟨m, h3⟩, h4⟩

/-- Claim C1 (code_bug).  First conjunct: the faithful embedding of
`offset_path` raises `AttributeError` on the S1 input — `path_offset.py`
line 64 reads `it.target_location.vec2`, but `target_location` is a method
of `SvgItem` (`svg.py` line 479), while the repository's own test
(`tests/test_path_offset.py`, `triangle_offset_s1`) expects the claimed
output.  Second conjunct: with the attribute slip repaired
(`target_location()` called), the pipeline returns exactly the claimed
path in exact coordinates.  Remaining conjuncts: the 28-significant-digit
decimal rendering performed by `rat_to_dec` turns those exact coordinates
into precisely the decimal literals of the claim. -/
theorem c1_triangle_offset :
    offset_path (triangleS1 ℝ) (1 / 10) =
      .error .attributeErrorTargetLocation ∧
    offset_path_fixed Real.sqrt (triangleS1 ℝ) (1 / 10) =
      .ok [.moveTo ⟨1 / 10, 1 / 10 + Real.sqrt 2 / 10⟩,
           .lineTo ⟨9 / 10 - Real.sqrt 2 / 10, 9 / 10⟩,
           .lineTo ⟨1 / 10, 9 / 10⟩,
           .closePath] ∧
    RoundsToSig 28 (1 / 10) (1 / 10) ∧
    RoundsToSig 28 (1 / 10 + Real.sqrt 2 / 10)
      (2414213562373095048801688724 / 10 ^ 28) ∧
    RoundsToSig 28 (9 / 10 - Real.sqrt 2 / 10)
      (7585786437626904951198311276 / 10 ^ 28) ∧
    RoundsToSig 28 (9 / 10) (9 / 10) := by
  have hs2 : Real.sqrt 2 * Real.sqrt 2 = 2 := Real.mul_self_sqrt (by norm_num)
  have h0 : (0 : ℝ) ≤ Real.sqrt 2 := Real.sqrt_nonneg 2
  have ha0 : (0 : ℝ) ≤ 1414213562373095048801688724 / 10 ^ 27 := by positivity
  have haa : (1414213562373095048801688724 : ℝ) / 10 ^ 27 *
      (1414213562373095048801688724 / 10 ^ 27) < 2 := by norm_num
  have hbb : (2 : ℝ) <
      (1414213562373095048801688724 / 10 ^ 27 + 5 / 10 ^ 28) *
      (1414213562373095048801688724 / 10 ^ 27 + 5 / 10 ^ 28) := by norm_num
  have hlow : (1414213562373095048801688724 : ℝ) / 10 ^ 27 < Real.sqrt 2 := by
    nlinarith [hs2, h0, haa, ha0]
  have hhigh : Real.sqrt 2 <
      (1414213562373095048801688724 : ℝ) / 10 ^ 27 + 5 / 10 ^ 28 := by
    nlinarith [hs2, h0, hbb, ha0]
  have hsmall : (1414213562373095048801688724 : ℝ) / 10 ^ 27 + 5 / 10 ^ 28
      < 8 := by norm_num
  have hz1 : (10 : ℝ) ^ (-1 : ℤ) = 1 / 10 := by norm_num
  have hz0 : (10 : ℝ) ^ ((-1 : ℤ) + 1) = 1 := by norm_num
  have hz : (10 : ℝ) ^ ((-1 : ℤ) + 1 - 28) = 1 / 10 ^ 28 := by norm_num
  refine ⟨rfl, ?_, ?_, ?_, ?_, ?_⟩
  · unfold offset_path_fixed
    rw [c1_prepare]
    rfl
  · refine roundsToSig_of _ _ (-1) (10 ^ 27) ?_ ?_ ?_ ?_
    · rw [hz1, abs_of_nonneg (by norm_num : (0 : ℝ) ≤ 1 / 10)]
    · rw [hz0, abs_of_nonneg (by norm_num : (0 : ℝ) ≤ 1 / 10)]
      norm_num
    · rw [hz]
      push_cast
      norm_num
    · rw [hz]
      push_cast
      rw [show (1 / 10 : ℝ) - 1 / 10 = 0 from by ring, abs_zero]
      positivity
  · refine roundsToSig_of _ _ (-1) 2414213562373095048801688724 ?_ ?_ ?_ ?_
    · rw [hz1, abs_of_nonneg (by positivity : (0 : ℝ) ≤ 1 / 10 + Real.sqrt 2 / 10)]
      linarith
    · rw [hz0, abs_of_nonneg (by positivity : (0 : ℝ) ≤ 1 / 10 + Real.sqrt 2 / 10)]
      linarith
    · rw [hz]
      push_cast
      ring
    · rw [hz]
      push_cast
      rw [show (1 / 10 + Real.sqrt 2 / 10 : ℝ) -
          2414213562373095048801688724 / 10 ^ 28 =
          (Real.sqrt 2 - 1414213562373095048801688724 / 10 ^ 27) / 10 from by
        ring]
      rw [abs_of_nonneg (by linarith)]
      linarith
  · refine roundsToSig_of _ _ (-1) 7585786437626904951198311276 ?_ ?_ ?_ ?_
    · rw [hz1, abs_of_nonneg (by nlinarith [hs2, h0] :
        (0 : ℝ) ≤ 9 / 10 - Real.sqrt 2 / 10)]
      linarith
    · rw [hz0, abs_of_nonneg (by nlinarith [hs2, h0] :
        (0 : ℝ) ≤ 9 / 10 - Real.sqrt 2 / 10)]
      linarith
    · rw [hz]
      push_cast
      ring
    · rw [hz]
      push_cast
      rw [show (9 / 10 - Real.sqrt 2 / 10 : ℝ) -
          7585786437626904951198311276 / 10 ^ 28 =
          -((Real.sqrt 2 - 1414213562373095048801688724 / 10 ^ 27) / 10)
          from by ring]
      rw [abs_neg, abs_of_nonneg (by linarith)]
      linarith
  · refine roundsToSig_of _ _ (-1) (9 * 10 ^ 27) ?_ ?_ ?_ ?_
    · rw [hz1, abs_of_nonneg (by norm_num : (0 : ℝ) ≤ 9 / 10)]
      norm_num
    · rw [hz0, abs_of_nonneg (by norm_num : (0 : ℝ) ≤ 9 / 10)]
      norm_num
    · rw [hz]
      push_cast
      norm_num
    · rw [hz]
      push_cast
      rw [show (9 / 10 : ℝ) - 9 / 10 = 0 from by ring, abs_zero]
      positivity

end SvgOffset
